import Mathlib

/-!
# EPUB exporter: `pkg/exporter/epub/export.go`

A shallow embedding of the exporter that turns an article into an EPUB
package: `Export`, `exportEpub`, `processNode`, `processURLAttribute` and
`processURL`.

Conventions of the embedding.

* A Go function that returns normally yields `Run.returned v`; a runtime
  panic (here: the dereference of a nil `*model.FileAsset`) yields
  `Run.panicked`.
* Every call to a collaborator that lives outside this file (the downloader,
  the package `Writer`) is appended to a call trace of type `List Event`.  The
  answer of a collaborator may depend on the whole trace so far, hence on any
  internal state a deterministic implementation can have.
* The parsed document is kept as its document-order (pre-order) sequence of
  nodes, each node carrying its depth; a `*html.Node` pointer is the position
  of the node in that sequence.
* Go strings are Lean strings, byte slices are lists of byte values.
-/

set_option linter.unusedVariables false

namespace Epub

/-! ## Values -/

/-- Go byte slice (`[]byte`), one number per byte. -/
abbrev Bytes := List Nat

/-- Go `error` values that occur in this file.  `errSkippedURL` is the
package-level sentinel `errors.New("skip processing url")`; `errorf` is an
error built by `fmt.Errorf` without wrapping, `wrapf` one built with `%w`;
`canceled` stands for `context.Canceled`; `other` is any further error value a
collaborator may hand back. -/
inductive GoError where
  | errSkippedURL
  | errorf (msg : String)
  | wrapf (msg : String) (inner : GoError)
  | canceled
  | other (msg : String)
deriving DecidableEq, Repr

/-- Result of running a Go function: it returned a value, or it panicked. -/
inductive Run (α : Type) where
  | returned (v : α)
  | panicked
deriving DecidableEq, Repr

/-- The fields of `model.FileAsset` (declared in `pkg/model`). -/
structure FileAsset where
  Data : Bytes
  ContentType : String
  Name : String
deriving DecidableEq, Repr

/-- The fields of `model.Article` that this file reads (declared in
`pkg/model`); `URL` is a `*string`, so it may be nil. -/
structure Article where
  Title : String
  URL : Option String
  HTML : Option String
deriving DecidableEq, Repr

/-- What this file reads from a `*net/url.URL`: the `Scheme` field, the value
of the `Hostname()` method and the value of the `String()` method. -/
structure URL where
  Scheme : String
  Hostname : String
  str : String
deriving DecidableEq, Repr

/-- The `context.Context` handed through to the downloader; `Err` is the value
of `ctx.Err()`. -/
structure Context where
  Err : Option GoError
deriving DecidableEq, Repr

/-- One call to a collaborator, with its arguments.  `write entry data` is a
write of `data` into the sink returned by `NewItem entry _`. -/
inductive Event where
  | download (url : String)
  | newContainer
  | newItem (name contentType : String)
  | write (entry : String) (data : Bytes)
  | writeOPF (name primary : String)
  | close
deriving DecidableEq, Repr

/-! ## Strings: `strings.TrimSpace`, `strings.HasPrefix`, `strings.TrimRight`, `path.Base` -/

/-- Go `unicode.IsSpace`: the Latin-1 spaces `\t \n \v \f \r`, space, U+0085,
U+00A0, and the `White_Space` code points above Latin-1. -/
def isSpace (c : Char) : Bool :=
  let n := c.toNat
  n == 9 || n == 10 || n == 11 || n == 12 || n == 13 || n == 32 || n == 0x85 || n == 0xA0
    || n == 0x1680 || (0x2000 ≤ n && n ≤ 0x200A) || n == 0x2028 || n == 0x2029
    || n == 0x202F || n == 0x205F || n == 0x3000

/-- Go `strings.TrimSpace`: all leading and trailing white space removed. -/
def TrimSpace (s : String) : String :=
  String.mk (List.rdropWhile isSpace (List.dropWhile isSpace s.data))

/-- Go `strings.HasPrefix`. -/
def HasPrefix (s pre : String) : Bool :=
  List.isPrefixOf pre.data s.data

/-- Go `strings.TrimRight`: all trailing code points contained in `cutset`
removed. -/
def TrimRight (s cutset : String) : String :=
  String.mk (List.rdropWhile (fun c => decide (c ∈ cutset.data)) s.data)

/-- Go `path.Base`: the last element of the path; trailing slashes are removed
first; the empty path gives ".", a path of slashes only gives "/". -/
def Base (path : String) : String :=
  if path = "" then "."
  else
    let stripped := List.rdropWhile (fun c => c == '/') path.data
    let last := List.rtakeWhile (fun c => c != '/') stripped
    if last = [] then "/" else String.mk last

/-! ## The document tree: `golang.org/x/net/html` and `github.com/go-shiori/dom` -/

/-- Go `html.NodeType`. -/
inductive NodeType where
  | ErrorNode
  | TextNode
  | DocumentNode
  | ElementNode
  | CommentNode
  | DoctypeNode
  | RawNode
deriving DecidableEq, Repr

/-- Go `html.Attribute` (without the namespace field). -/
structure Attribute where
  Key : String
  Val : String
deriving DecidableEq, Repr

/-- Go `html.Node`: its type, its `Data` (the tag name of an element), its
attributes, and its depth in the tree in place of the parent and sibling
pointers. -/
structure Node where
  Typ : NodeType
  Data : String
  Attr : List Attribute
  depth : Nat
deriving DecidableEq, Repr

/-- A parsed document: the nodes of the tree in document order, the root
(document node) first.  A node pointer is an index into this list. -/
abbrev Doc := List Node

/-- Attribute lookup of `dom.GetAttribute`: the value of the first attribute
with the given key, the empty string when there is none. -/
def getAttr : List Attribute → String → String
  | [], _ => ""
  | a :: rest, k => if a.Key = k then a.Val else getAttr rest k

/-- Attribute update of `dom.SetAttribute`: the first attribute with the given
key gets the new value; when there is none, a new attribute is appended. -/
def setAttr : List Attribute → String → String → List Attribute
  | [], k, v => [{ Key := k, Val := v }]
  | a :: rest, k, v =>
    if a.Key = k then { a with Val := v } :: rest else a :: setAttr rest k v

/-- The function `dom.HasAttribute`. -/
def HasAttribute (doc : Doc) (node : Nat) (attrName : String) : Bool :=
  match doc[node]? with
  | none => false
  | some n => n.Attr.any (fun a => decide (a.Key = attrName))

/-- The function `dom.GetAttribute`. -/
def GetAttribute (doc : Doc) (node : Nat) (attrName : String) : String :=
  match doc[node]? with
  | none => ""
  | some n => getAttr n.Attr attrName

/-- The function `dom.SetAttribute`: only the attribute list of the one node
changes. -/
def SetAttribute (doc : Doc) (node : Nat) (attrName attrValue : String) : Doc :=
  match doc[node]? with
  | none => doc
  | some n => doc.set node { n with Attr := setAttr n.Attr attrName attrValue }

/-- The function `dom.GetElementsByTagName`: the element nodes below the root
whose tag name is `tagName` (or all of them for "*"), in document order. -/
def GetElementsByTagName (doc : Doc) (tagName : String) : List Nat :=
  (List.range doc.length).filter (fun i =>
    match doc[i]? with
    | none => false
    | some n =>
      decide (0 < i) && decide (n.Typ = NodeType.ElementNode)
        && (decide (tagName = "*") || decide (n.Data = tagName)))

/-! ## Collaborators -/

/-- The collaborators of the exporter that are not defined in `export.go`.

* `ParseRequestURI`: `net/url.ParseRequestURI`.
* `Download`: `exporter.Downloader.Download`; it returns the pair
  `(*model.FileAsset, error)` as Go does.
* `NewContainer`, `NewItem`, `Write`, `WriteOPF`: the methods of the package
  `Writer` (`writer.go`) and of the sink returned by `NewItem`; `none` is a
  nil error.
* `Parse`: `html.Parse`.
* `Render`: what `html.Render` does on its sink for a tree: the blocks of
  bytes it hands to the sink, one `Write` call each and in this order, and the
  error of the rendering itself, if any.  `html.Render` buffers its output, so
  a large document reaches the sink in several blocks; when the rendering
  succeeds, the blocks put together are the serialisation of the tree.
* `Execute`: `articleAsXHTMLTpl.Execute`.
* `NewWriter`: the error result of `NewWriter(buf, title)`.
* `Buffer`: the bytes found in the output buffer after the given calls.
* `ContentTypeEpub`: `constant.ContentTypeEpub`. -/
structure Env where
  ParseRequestURI : String → Except GoError URL
  Download : Context → List Event → String → Option FileAsset × Option GoError
  NewContainer : List Event → Option GoError
  NewItem : List Event → String → String → Option GoError
  Write : List Event → String → Bytes → Option GoError
  WriteOPF : List Event → String → String → Option GoError
  Parse : Bytes → Except GoError Doc
  Render : Doc → List Bytes × Option GoError
  Execute : Article → Except GoError Bytes
  NewWriter : String → Option GoError
  Buffer : List Event → Bytes
  ContentTypeEpub : String

/-- The state the exporter works on: the parsed tree and the calls made so
far. -/
structure State where
  doc : Doc
  trace : List Event
deriving DecidableEq, Repr

/-! ## The exporter -/

/-- The method `EpubExporter.processURL`.  The argument `parentURL` is not
read. -/
def processURL (env : Env) (ctx : Context) (url : String) (parentURL : String)
    (trace : List Event) : (Option FileAsset × Option GoError) × List Event :=
  -- Ignore special URLs
  let url := TrimSpace url
  if url = "" ∨ HasPrefix url "data:" = true ∨ HasPrefix url "#" = true then
    ((none, some GoError.errSkippedURL), trace)
  else
    -- Validate URL
    match env.ParseRequestURI url with
    | Except.error _ => ((none, some GoError.errSkippedURL), trace)
    | Except.ok parsedURL =>
      if parsedURL.Scheme = "" ∨ parsedURL.Hostname = "" then
        ((none, some GoError.errSkippedURL), trace)
      else
        -- Download URL
        match env.Download ctx trace url with
        | (_, some _) => ((none, some GoError.errSkippedURL), trace ++ [Event.download url])
        | (asset, none) => ((asset, none), trace ++ [Event.download url])

/-- The method `EpubExporter.processURLAttribute`.  After `processURL` only an
error other than `errSkippedURL` is returned; on `errSkippedURL` control falls
through to `path.Base(asset.Name)` with a nil `asset`, which panics. -/
def processURLAttribute (env : Env) (ctx : Context) (s : State) (node : Nat)
    (attrName : String) (baseURL : URL) : Run (Option GoError) × State :=
  if HasAttribute s.doc node attrName = false then
    (Run.returned none, s)
  else
    let url := GetAttribute s.doc node attrName
    match processURL env ctx url baseURL.str s.trace with
    | ((asset, err), trace1) =>
      if err ≠ none ∧ err ≠ some GoError.errSkippedURL then
        (Run.returned err, { s with trace := trace1 })
      else
        match asset with
        | none => (Run.panicked, { s with trace := trace1 })
        | some a =>
          let newURL := Base a.Name
          let trace2 := trace1 ++ [Event.newItem newURL a.ContentType]
          match env.NewItem trace1 newURL a.ContentType with
          | some e => (Run.returned (some e), { s with trace := trace2 })
          | none =>
            let trace3 := trace2 ++ [Event.write newURL a.Data]
            match env.Write trace2 newURL a.Data with
            | some e => (Run.returned (some e), { s with trace := trace3 })
            | none =>
              (Run.returned none,
                { doc := SetAttribute s.doc node attrName newURL, trace := trace3 })

/-- The method `EpubExporter.processNode`. -/
def processNode (env : Env) (ctx : Context) (s : State) (node : Nat) (baseURL : URL) :
    Run (Option GoError) × State :=
  match processURLAttribute env ctx s node "src" baseURL with
  | (Run.returned (some err), s1) => (Run.returned (some err), s1)
  | (Run.returned none, s1) => (Run.returned none, s1)
  | (Run.panicked, s1) => (Run.panicked, s1)

/-- The `for _, node := range ...` loop of `exportEpub`: the first node whose
processing does not return nil ends the loop. -/
def processNodes (env : Env) (ctx : Context) (baseURL : URL) :
    List Nat → State → Run (Option GoError) × State
  | [], s => (Run.returned none, s)
  | node :: rest, s =>
    match processNode env ctx s node baseURL with
    | (Run.returned none, s1) => processNodes env ctx baseURL rest s1
    | (r, s1) => (r, s1)

/-- The writes `html.Render` makes on the sink of the entry `entry`: the
blocks one after the other; the first write that fails ends them and its error
is what `html.Render` returns. -/
def writeBlocks (env : Env) (entry : String) :
    List Bytes → List Event → Option GoError × List Event
  | [], trace => (none, trace)
  | block :: rest, trace =>
    match env.Write trace entry block with
    | some err => (some err, trace ++ [Event.write entry block])
    | none => writeBlocks env entry rest (trace ++ [Event.write entry block])

/-- The method `EpubExporter.exportEpub`.  The second component is the state at
exit: the local tree `doc` (empty before parsing) and the calls made. -/
def exportEpub (env : Env) (ctx : Context) (input : Bytes) (trace : List Event)
    (baseURL : String) : Run (Option GoError) × State :=
  match env.ParseRequestURI baseURL with
  | Except.error _ =>
    (Run.returned (some (GoError.errorf ("url \"" ++ baseURL ++ "\" is not valid"))),
      { doc := [], trace := trace })
  | Except.ok url =>
    if url.Scheme = "" ∨ url.Hostname = "" then
      (Run.returned (some (GoError.errorf ("url \"" ++ baseURL ++ "\" is not valid"))),
        { doc := [], trace := trace })
    else
      let trace1 := trace ++ [Event.newContainer]
      match env.NewContainer trace with
      | some err => (Run.returned (some err), { doc := [], trace := trace1 })
      | none =>
        match env.Parse input with
        | Except.error err =>
          (Run.returned (some (GoError.wrapf "failed to parse HTML: " err)),
            { doc := [], trace := trace1 })
        | Except.ok doc =>
          match processNodes env ctx url (GetElementsByTagName doc "img")
              { doc := doc, trace := trace1 } with
          | (Run.panicked, s) => (Run.panicked, s)
          | (Run.returned (some err), s) => (Run.returned (some err), s)
          | (Run.returned none, s) =>
            let trace2 := s.trace ++ [Event.newItem "article.xhtml" "application/xhtml+xml"]
            match env.NewItem s.trace "article.xhtml" "application/xhtml+xml" with
            | some err => (Run.returned (some err), { s with trace := trace2 })
            | none =>
              match env.Render s.doc with
              | (blocks, renderErr) =>
                match writeBlocks env "article.xhtml" blocks trace2 with
                | (some err, trace3) => (Run.returned (some err), { s with trace := trace3 })
                | (none, trace3) =>
                  match renderErr with
                  | some err => (Run.returned (some err), { s with trace := trace3 })
                  | none =>
                    let trace4 := trace3 ++ [Event.writeOPF "content.opf" "article.xhtml"]
                    (Run.returned (env.WriteOPF trace3 "content.opf" "article.xhtml"),
                      { s with trace := trace4 })

/-- The method `EpubExporter.Export`.  The second component is the list of
calls made. -/
def Export (env : Env) (ctx : Context) (article : Article) :
    Run (Option FileAsset × Option GoError) × List Event :=
  match env.Execute article with
  | Except.error err => (Run.returned (none, some err), [])
  | Except.ok buffer =>
    match env.NewWriter article.Title with
    | some err => (Run.returned (none, some err), [])
    | none =>
      match article.URL with
      | none => (Run.panicked, [])
      | some baseURL =>
        match exportEpub env ctx buffer [] baseURL with
        | (Run.panicked, s) => (Run.panicked, s.trace)
        | (Run.returned (some err), s) =>
          (Run.returned (none, some err), s.trace ++ [Event.close])
        | (Run.returned none, s) =>
          (Run.returned
              (some { Data := env.Buffer (s.trace ++ [Event.close]),
                      ContentType := env.ContentTypeEpub,
                      Name := TrimRight article.Title ". " ++ ".epub" },
                none),
            s.trace ++ [Event.close])

/-! ## Vocabulary of the specification -/

/-- The reference parses, on its own, as an absolute URL with a non-empty
scheme and a non-empty host. -/
def absoluteURL (env : Env) (reference : String) : Bool :=
  match env.ParseRequestURI reference with
  | Except.error _ => false
  | Except.ok u => !(u.Scheme == "") && !(u.Hostname == "")

/-- The classification of a reference by the URL resolver: `true` for a
resolvable reference, `false` for Skip.  A reference is resolvable when, after
trimming white space, it is not empty, does not begin with "#", does not begin
with "data:" and is an absolute URL. -/
def resolvable (env : Env) (reference : String) : Bool :=
  let u := TrimSpace reference
  !(u == "") && !(HasPrefix u "#") && !(HasPrefix u "data:") && absoluteURL env u

/-- The names of the package entries created by the calls of a trace, in the
order of their creation. -/
def entryNames : List Event → List String
  | [] => []
  | Event.newItem name _ :: rest => name :: entryNames rest
  | _ :: rest => entryNames rest

/-- The URLs handed to the downloader by the calls of a trace, in order. -/
def fetchedURLs : List Event → List String
  | [] => []
  | Event.download url :: rest => url :: fetchedURLs rest
  | _ :: rest => fetchedURLs rest

/-- The calls made for a sequence of img elements, each with the asset fetched
for it: one fetch of the trimmed reference read from `doc`, one entry named
after the base name of the asset, one write of the payload. -/
def assetEvents (doc : Doc) : List (Nat × FileAsset) → List Event
  | [] => []
  | (node, a) :: rest =>
    Event.download (TrimSpace (GetAttribute doc node "src"))
      :: Event.newItem (Base a.Name) a.ContentType
      :: Event.write (Base a.Name) a.Data
      :: assetEvents doc rest

/-- The tree after the `src` of each listed element has been set to the base
name of its asset, in the order of the list. -/
def applyRewrites (doc : Doc) : List (Nat × FileAsset) → Doc
  | [] => doc
  | (node, a) :: rest => applyRewrites (SetAttribute doc node "src" (Base a.Name)) rest

/-- Each asset of the list is the one the downloader returned, without error,
for the trimmed reference of its element, at the moment of its fetch: the
first one after the calls of `trace`, each further one after the calls for the
assets before it. -/
def fetchedBy (env : Env) (ctx : Context) (doc : Doc) :
    List Event → List (Nat × FileAsset) → Bool
  | _, [] => true
  | trace, (node, a) :: rest =>
    decide (env.Download ctx trace (TrimSpace (GetAttribute doc node "src")) = (some a, none))
      && fetchedBy env ctx doc
          (trace ++ [Event.download (TrimSpace (GetAttribute doc node "src")),
            Event.newItem (Base a.Name) a.ContentType, Event.write (Base a.Name) a.Data])
          rest

/-- Two answers of a downloader that are the same up to the error of a
failure: both succeed with the same asset, or both fail. -/
def sameUpToError (r r' : Option FileAsset × Option GoError) : Bool :=
  match r, r' with
  | (a, none), (a', none) => decide (a = a')
  | (_, some _), (_, some _) => true
  | _, _ => false

/-- The img elements of a tree that carry a `src` attribute, in document
order. -/
def imagesWithSrc (doc : Doc) : List Nat :=
  (GetElementsByTagName doc "img").filter (fun node => HasAttribute doc node "src")

/-! ## Test doubles

Concrete collaborators used to run the exporter on explicit inputs. -/

/-- A URL parser double: the answers of `net/url.ParseRequestURI` on the few
absolute URLs used below; every other string is rejected. -/
def fixtureParseRequestURI (s : String) : Except GoError URL :=
  if s = "https://example.org/post" then
    Except.ok { Scheme := "https", Hostname := "example.org", str := s }
  else if s = "https://cdn.x/a.png" then
    Except.ok { Scheme := "https", Hostname := "cdn.x", str := s }
  else if s = "https://cdn.x/pics/b.png" then
    Except.ok { Scheme := "https", Hostname := "cdn.x", str := s }
  else if s = "https://cdn.x/article.xhtml" then
    Except.ok { Scheme := "https", Hostname := "cdn.x", str := s }
  else if s = "https://cdn.x/missing.png" then
    Except.ok { Scheme := "https", Hostname := "cdn.x", str := s }
  else Except.error (GoError.other "invalid URI for request")

/-- A downloader double: a cancelled context makes every fetch fail with the
context error; otherwise three URLs are served and every other fetch fails. -/
def fixtureDownload (ctx : Context) (trace : List Event) (url : String) :
    Option FileAsset × Option GoError :=
  match ctx.Err with
  | some e => (none, some e)
  | none =>
    if url = "https://cdn.x/a.png" then
      (some { Data := [65, 65, 65], ContentType := "image/png", Name := "a.png" }, none)
    else if url = "https://cdn.x/pics/b.png" then
      (some { Data := [66], ContentType := "image/png", Name := "pics/b.png" }, none)
    else if url = "https://cdn.x/article.xhtml" then
      (some { Data := [67], ContentType := "application/xhtml+xml", Name := "article.xhtml" },
        none)
    else (none, some (GoError.other "404 Not Found"))

/-- A serialiser double: every node as its tag followed by its attributes. -/
def fixtureRender (doc : Doc) : Bytes :=
  (String.join (doc.map (fun n =>
    "<" ++ n.Data ++ String.join (n.Attr.map (fun a => " " ++ a.Key ++ "=" ++ a.Val))
      ++ ">"))).data.map Char.toNat

/-- A buffered serialiser double: the serialisation in blocks, the first of 32
bytes. -/
def fixtureBlocks (doc : Doc) : List Bytes :=
  [(fixtureRender doc).take 32, (fixtureRender doc).drop 32]

/-- A downloader double that fails where `fixtureDownload` fails, with another
error. -/
def fixtureDownloadOther (ctx : Context) (trace : List Event) (url : String) :
    Option FileAsset × Option GoError :=
  match fixtureDownload ctx trace url with
  | (_, some _) => (none, some (GoError.other "connection refused"))
  | (a, none) => (a, none)

/-- The environment of the test doubles: the parser returns `doc` for every
input and the package writer accepts every call. -/
def fixtureEnv (doc : Doc) : Env where
  ParseRequestURI := fixtureParseRequestURI
  Download := fixtureDownload
  NewContainer := fun _ => none
  NewItem := fun _ _ _ => none
  Write := fun _ _ _ => none
  WriteOPF := fun _ _ _ => none
  Parse := fun _ => Except.ok doc
  Render := fun d => (fixtureBlocks d, none)
  Execute := fun _ => Except.ok []
  NewWriter := fun _ => none
  Buffer := fun t => [t.length]
  ContentTypeEpub := "application/epub+zip"

/-- An img element with the given attributes. -/
def img (attrs : List Attribute) : Node :=
  { Typ := NodeType.ElementNode, Data := "img", Attr := attrs, depth := 3 }

/-- The tree of a page whose body holds the given nodes. -/
def page (body : List Node) : Doc :=
  [ { Typ := NodeType.DocumentNode, Data := "", Attr := [], depth := 0 },
    { Typ := NodeType.ElementNode, Data := "html", Attr := [], depth := 1 },
    { Typ := NodeType.ElementNode, Data := "body", Attr := [], depth := 2 } ] ++ body

/-- A context that has not been cancelled. -/
def liveCtx : Context := { Err := none }

/-- A context whose cancellation signal has been triggered. -/
def cancelledCtx : Context := { Err := some GoError.canceled }

/-- The base URL used in the examples. -/
def postURL : String := "https://example.org/post"

/-- Two images: a downloadable one, then a fragment reference. -/
def docSkip : Doc :=
  page [img [⟨"src", "https://cdn.x/a.png"⟩], img [⟨"src", "#thumb"⟩]]

/-- Two images: a downloadable one, then one whose download fails. -/
def docMissing : Doc :=
  page [img [⟨"src", "https://cdn.x/a.png"⟩], img [⟨"src", "https://cdn.x/missing.png"⟩]]

/-- One downloadable image with a second attribute. -/
def docOne : Doc :=
  page [img [⟨"alt", "logo"⟩, ⟨"src", " https://cdn.x/pics/b.png "⟩]]

/-- The same image referenced twice. -/
def docTwice : Doc :=
  page [img [⟨"src", "https://cdn.x/a.png"⟩], img [⟨"src", "https://cdn.x/a.png"⟩]]

/-- An image whose asset is named like the primary document. -/
def docClash : Doc :=
  page [img [⟨"src", "https://cdn.x/article.xhtml"⟩]]

/-- Two different images and an img element without `src`. -/
def docTwo : Doc :=
  page [img [⟨"src", "https://cdn.x/a.png"⟩], img [⟨"alt", "none"⟩],
    img [⟨"src", "https://cdn.x/pics/b.png"⟩]]

/-! ## The URL resolver: `processURL` -/

theorem absoluteURL_eq_false_iff (env : Env) (s : String) :
    absoluteURL env s = false ↔
      ∀ u, env.ParseRequestURI s = Except.ok u → u.Scheme = "" ∨ u.Hostname = "" := by
  unfold absoluteURL
  cases h : env.ParseRequestURI s with
  | error e => simp
  | ok u =>
    simp only [Except.ok.injEq, forall_eq']
    by_cases h1 : u.Scheme = "" <;> by_cases h2 : u.Hostname = "" <;> simp [h1, h2]

/-- A reference classified Skip makes `processURL` return the sentinel without
any call. -/
theorem processURL_skip (env : Env) (ctx : Context) (url parentURL : String)
    (trace : List Event) (h : resolvable env url = false) :
    processURL env ctx url parentURL trace = ((none, some GoError.errSkippedURL), trace) := by
  unfold processURL
  unfold resolvable absoluteURL at h
  simp only at h ⊢
  by_cases h1 : TrimSpace url = ""
  · simp [h1]
  by_cases h2 : HasPrefix (TrimSpace url) "data:" = true
  · simp [h2]
  by_cases h3 : HasPrefix (TrimSpace url) "#" = true
  · simp [h3]
  simp only [h1, h2, h3, or_self, if_false]
  cases hp : env.ParseRequestURI (TrimSpace url) with
  | error e => rfl
  | ok u =>
    simp only [hp] at h
    by_cases h4 : u.Scheme = ""
    · simp [h4]
    by_cases h5 : u.Hostname = ""
    · simp [h5]
    simp [h1, h2, h3, h4, h5] at h

/-- A resolvable reference makes `processURL` call the downloader once, with
the trimmed reference; a download error is replaced by the sentinel. -/
theorem processURL_resolvable (env : Env) (ctx : Context) (url parentURL : String)
    (trace : List Event) (h : resolvable env url = true) :
    processURL env ctx url parentURL trace =
      (match env.Download ctx trace (TrimSpace url) with
        | (_, some _) => (none, some GoError.errSkippedURL)
        | (asset, none) => (asset, none),
       trace ++ [Event.download (TrimSpace url)]) := by
  unfold processURL
  unfold resolvable absoluteURL at h
  simp only at h ⊢
  simp only [Bool.and_eq_true, Bool.not_eq_true', beq_eq_false_iff_ne, ne_eq] at h
  obtain ⟨⟨⟨h1, h3⟩, h2⟩, h4⟩ := h
  simp only [h1, h2, h3, or_self, if_false, Bool.false_eq_true]
  cases hp : env.ParseRequestURI (TrimSpace url) with
  | error e => simp [hp] at h4
  | ok u =>
    simp only [hp, Bool.and_eq_true, Bool.not_eq_true', beq_eq_false_iff_ne, ne_eq] at h4
    simp only [h4.1, h4.2, or_self, if_false]
    rcases hd : env.Download ctx trace (TrimSpace url) with ⟨a, _ | e⟩ <;> rfl

/-! ## The tree primitives -/

theorem getAttr_setAttr_self (l : List Attribute) (k v : String) :
    getAttr (setAttr l k v) k = v := by
  induction l with
  | nil => simp [setAttr, getAttr]
  | cons a rest ih =>
    unfold setAttr
    by_cases h : a.Key = k
    · simp [h, getAttr]
    · simp [h, getAttr, ih]

theorem getAttr_setAttr_other (l : List Attribute) (k v j : String) (h : j ≠ k) :
    getAttr (setAttr l k v) j = getAttr l j := by
  have hk : ¬ k = j := fun e => h e.symm
  induction l with
  | nil => simp [setAttr, getAttr, hk]
  | cons a rest ih =>
    by_cases h1 : a.Key = k
    · have h2 : ¬ a.Key = j := fun e => h (e.symm.trans h1)
      have e1 : setAttr (a :: rest) k v = { a with Val := v } :: rest := by
        simp [setAttr, h1]
      rw [e1]
      simp only [getAttr, h2, if_false]
    · have e1 : setAttr (a :: rest) k v = a :: setAttr rest k v := by
        simp [setAttr, h1]
      rw [e1]
      by_cases h2 : a.Key = j
      · simp only [getAttr, h2, if_true]
      · simp only [getAttr, h2, if_false, ih]

/-- When the key is present, `setAttr` replaces the value of its first
occurrence and leaves the list otherwise as it is. -/
theorem setAttr_of_present (l : List Attribute) (k v : String)
    (h : l.any (fun a => decide (a.Key = k)) = true) :
    ∃ before a after, l = before ++ a :: after ∧ a.Key = k ∧ (∀ b ∈ before, b.Key ≠ k) ∧
      setAttr l k v = before ++ { a with Val := v } :: after := by
  induction l with
  | nil => simp at h
  | cons a rest ih =>
    by_cases h1 : a.Key = k
    · exact ⟨[], a, rest, rfl, h1, by simp, by simp [setAttr, h1]⟩
    · have h2 : rest.any (fun a => decide (a.Key = k)) = true := by
        simpa [List.any_cons, h1] using h
      obtain ⟨before, b, after, e1, e2, e3, e4⟩ := ih h2
      refine ⟨a :: before, b, after, by simp [e1], e2, ?_, ?_⟩
      · intro c hc
        rcases List.mem_cons.mp hc with rfl | hc
        · exact h1
        · exact e3 c hc
      · simp [setAttr, h1, e4]

theorem any_key_setAttr (l : List Attribute) (k v j : String)
    (h : l.any (fun a => decide (a.Key = k)) = true) :
    (setAttr l k v).any (fun a => decide (a.Key = j)) = l.any (fun a => decide (a.Key = j)) := by
  obtain ⟨before, a, after, e1, e2, e3, e4⟩ := setAttr_of_present l k v h
  rw [e4, e1]
  simp [List.any_append, List.any_cons]

theorem SetAttribute_getElem?_ne (doc : Doc) (node m : Nat) (k v : String) (h : m ≠ node) :
    (SetAttribute doc node k v)[m]? = doc[m]? := by
  unfold SetAttribute
  cases hn : doc[node]? with
  | none => rfl
  | some n => simp [List.getElem?_set_ne (Ne.symm h)]

theorem SetAttribute_getElem?_self (doc : Doc) (node : Nat) (k v : String) (n : Node)
    (h : doc[node]? = some n) :
    (SetAttribute doc node k v)[node]? = some { n with Attr := setAttr n.Attr k v } := by
  unfold SetAttribute
  simp only [h]
  have hlt : node < doc.length := by
    by_contra hge
    have := List.getElem?_eq_none (l := doc) (n := node) (by omega)
    rw [this] at h
    cases h
  simp [List.getElem?_set_self hlt]

theorem HasAttribute_some (doc : Doc) (node : Nat) (k : String)
    (h : HasAttribute doc node k = true) :
    ∃ n, doc[node]? = some n ∧ n.Attr.any (fun a => decide (a.Key = k)) = true := by
  unfold HasAttribute at h
  cases hn : doc[node]? with
  | none => simp [hn] at h
  | some n => exact ⟨n, rfl, by simpa [hn] using h⟩

/-- Setting an attribute that is present changes no answer of
`HasAttribute`. -/
theorem HasAttribute_SetAttribute (doc : Doc) (node m : Nat) (k v j : String)
    (h : HasAttribute doc node k = true) :
    HasAttribute (SetAttribute doc node k v) m j = HasAttribute doc m j := by
  obtain ⟨n, hn, hany⟩ := HasAttribute_some doc node k h
  by_cases hm : m = node
  · subst hm
    unfold HasAttribute
    rw [SetAttribute_getElem?_self doc m k v n hn, hn]
    exact any_key_setAttr n.Attr k v j hany
  · unfold HasAttribute
    rw [SetAttribute_getElem?_ne doc node m k v hm]

theorem GetAttribute_SetAttribute_self (doc : Doc) (node : Nat) (k v : String)
    (h : HasAttribute doc node k = true) :
    GetAttribute (SetAttribute doc node k v) node k = v := by
  obtain ⟨n, hn, _⟩ := HasAttribute_some doc node k h
  unfold GetAttribute
  rw [SetAttribute_getElem?_self doc node k v n hn]
  exact getAttr_setAttr_self n.Attr k v

theorem GetAttribute_SetAttribute_ne (doc : Doc) (node m : Nat) (k v j : String)
    (h : m ≠ node) :
    GetAttribute (SetAttribute doc node k v) m j = GetAttribute doc m j := by
  unfold GetAttribute
  rw [SetAttribute_getElem?_ne doc node m k v h]

theorem GetElementsByTagName_nodup (doc : Doc) (tagName : String) :
    (GetElementsByTagName doc tagName).Nodup :=
  (List.nodup_range doc.length).filter _

theorem imagesWithSrc_nodup (doc : Doc) : (imagesWithSrc doc).Nodup :=
  (GetElementsByTagName_nodup doc "img").filter _

/-! ## `path.Base` and `strings.TrimRight` -/

/-- The base name holds no slash, unless it is the root "/". -/
theorem Base_no_slash (path : String) : Base path = "/" ∨ '/' ∉ (Base path).data := by
  unfold Base
  by_cases h : path = ""
  · right
    simp [h]
  · simp only [h, if_false]
    split
    · left
      rfl
    · right
      intro hmem
      have := List.mem_rtakeWhile_imp hmem
      simp at this

/-- The base name of `dir/file` is `file`, for a non-empty `file` without
slash. -/
theorem Base_join (dir file : List Char) (h1 : file ≠ []) (h2 : '/' ∉ file) :
    Base (String.mk (dir ++ '/' :: file)) = String.mk file := by
  have hlast : ∀ hne : file ≠ [], file.getLast hne ≠ '/' := fun hne e =>
    h2 (e ▸ List.getLast_mem hne)
  have hne : dir ++ '/' :: file ≠ [] := by simp
  have hstr : String.mk (dir ++ '/' :: file) ≠ "" := by
    intro e
    exact hne (congrArg String.data e)
  have e0 : dir ++ '/' :: file = (dir ++ ['/']) ++ file := by simp
  have hstrip : List.rdropWhile (fun c => c == '/') (dir ++ '/' :: file) = dir ++ '/' :: file := by
    rw [List.rdropWhile_eq_self_iff]
    intro hl
    have : (dir ++ '/' :: file).getLast hl = file.getLast h1 := by
      rw [List.getLast_append_of_ne_nil (List.cons_ne_nil _ _), List.getLast_cons h1]
    rw [this]
    simpa using hlast h1
  have htake : List.rtakeWhile (fun c => c != '/') (dir ++ '/' :: file) = file := by
    unfold List.rtakeWhile
    rw [e0, List.reverse_append, List.reverse_append]
    simp only [List.reverse_cons, List.reverse_nil, List.nil_append, List.singleton_append]
    rw [List.takeWhile_append_of_pos]
    · simp [List.takeWhile]
    · intro c hc
      have hc2 : c ∈ file := List.mem_reverse.mp hc
      have : c ≠ '/' := fun e => h2 (e ▸ hc2)
      simpa using this
  unfold Base
  simp only [hstr, if_false, hstrip, htake, h1]

/-- The list form of `strings.TrimRight`: the result is a prefix, it does not
end in a cut character, and only cut characters were removed. -/
theorem rdropWhile_split (p : Char → Bool) (l : List Char) :
    ∃ removed, l = List.rdropWhile p l ++ removed ∧ (∀ c ∈ removed, p c = true) ∧
      (∀ c, (List.rdropWhile p l).getLast? = some c → p c = false) := by
  refine ⟨List.rtakeWhile p l, ?_, ?_, ?_⟩
  · unfold List.rdropWhile List.rtakeWhile
    have := List.takeWhile_append_dropWhile p l.reverse
    have h2 := congrArg List.reverse this
    rw [List.reverse_append, List.reverse_reverse] at h2
    exact h2.symm
  · intro c hc
    exact List.mem_rtakeWhile_imp hc
  · intro c hc
    by_cases hne : List.rdropWhile p l = []
    · simp [hne] at hc
    · have := List.rdropWhile_last_not p l hne
      rw [List.getLast?_eq_getLast _ hne] at hc
      cases hc
      simpa using this

/-! ## The resource rewriter on one element: `processURLAttribute` -/

/-- An element without the attribute is left alone. -/
theorem processURLAttribute_absent (env : Env) (ctx : Context) (s : State) (node : Nat)
    (attrName : String) (baseURL : URL) (h : HasAttribute s.doc node attrName = false) :
    processURLAttribute env ctx s node attrName baseURL = (Run.returned none, s) := by
  unfold processURLAttribute
  simp [h]

/-- A reference classified Skip: `processURL` hands back a nil asset with
`errSkippedURL`, the error is not returned, and `asset.Name` panics.  Nothing
has been called and the tree is as before. -/
theorem processURLAttribute_skip_panics (env : Env) (ctx : Context) (s : State) (node : Nat)
    (attrName : String) (baseURL : URL) (hattr : HasAttribute s.doc node attrName = true)
    (hskip : resolvable env (GetAttribute s.doc node attrName) = false) :
    processURLAttribute env ctx s node attrName baseURL = (Run.panicked, s) := by
  unfold processURLAttribute
  dsimp only
  rw [processURL_skip env ctx _ _ _ hskip]
  simp [hattr]

/-- A failed download: the downloader has been called once, then `asset.Name`
panics on the nil asset.  No entry has been created and the tree is as
before. -/
theorem processURLAttribute_fetch_error_panics (env : Env) (ctx : Context) (s : State)
    (node : Nat) (attrName : String) (baseURL : URL) (a : Option FileAsset) (e : GoError)
    (hattr : HasAttribute s.doc node attrName = true)
    (hres : resolvable env (GetAttribute s.doc node attrName) = true)
    (hfetch : env.Download ctx s.trace (TrimSpace (GetAttribute s.doc node attrName))
      = (a, some e)) :
    processURLAttribute env ctx s node attrName baseURL =
      (Run.panicked,
        { s with trace := s.trace
            ++ [Event.download (TrimSpace (GetAttribute s.doc node attrName))] }) := by
  unfold processURLAttribute
  dsimp only
  rw [processURL_resolvable env ctx _ _ _ hres, hfetch]
  simp [hattr]

/-- A downloader that returns neither an asset nor an error makes
`asset.Name` panic as well. -/
theorem processURLAttribute_nil_asset_panics (env : Env) (ctx : Context) (s : State)
    (node : Nat) (attrName : String) (baseURL : URL)
    (hattr : HasAttribute s.doc node attrName = true)
    (hres : resolvable env (GetAttribute s.doc node attrName) = true)
    (hfetch : env.Download ctx s.trace (TrimSpace (GetAttribute s.doc node attrName))
      = (none, none)) :
    processURLAttribute env ctx s node attrName baseURL =
      (Run.panicked,
        { s with trace := s.trace
            ++ [Event.download (TrimSpace (GetAttribute s.doc node attrName))] }) := by
  unfold processURLAttribute
  dsimp only
  rw [processURL_resolvable env ctx _ _ _ hres, hfetch]
  simp [hattr]

/-- A successful download whose entry the package writer accepts: one fetch,
one entry named after the base name of the asset, one write of its payload,
then the attribute is set to that name. -/
theorem processURLAttribute_fetched (env : Env) (ctx : Context) (s : State) (node : Nat)
    (attrName : String) (baseURL : URL) (a : FileAsset)
    (hattr : HasAttribute s.doc node attrName = true)
    (hres : resolvable env (GetAttribute s.doc node attrName) = true)
    (hfetch : env.Download ctx s.trace (TrimSpace (GetAttribute s.doc node attrName))
      = (some a, none))
    (hitem : env.NewItem
      (s.trace ++ [Event.download (TrimSpace (GetAttribute s.doc node attrName))])
      (Base a.Name) a.ContentType = none)
    (hwrite : env.Write
      (s.trace ++ [Event.download (TrimSpace (GetAttribute s.doc node attrName)),
        Event.newItem (Base a.Name) a.ContentType])
      (Base a.Name) a.Data = none) :
    processURLAttribute env ctx s node attrName baseURL =
      (Run.returned none,
        { doc := SetAttribute s.doc node attrName (Base a.Name),
          trace := s.trace ++ [Event.download (TrimSpace (GetAttribute s.doc node attrName)),
            Event.newItem (Base a.Name) a.ContentType, Event.write (Base a.Name) a.Data] }) := by
  unfold processURLAttribute
  dsimp only
  rw [processURL_resolvable env ctx _ _ _ hres, hfetch]
  simp [hattr, hitem, hwrite]

/-- What a nil return of `processURLAttribute` says about the call: either the
attribute was absent, or the reference was resolvable, its download
succeeded, and the entry was created, written and the attribute rewritten. -/
theorem processURLAttribute_returned_nil (env : Env) (ctx : Context) (s s1 : State)
    (node : Nat) (attrName : String) (baseURL : URL)
    (h : processURLAttribute env ctx s node attrName baseURL = (Run.returned none, s1)) :
    (HasAttribute s.doc node attrName = false ∧ s1 = s) ∨
    (HasAttribute s.doc node attrName = true ∧
      resolvable env (GetAttribute s.doc node attrName) = true ∧
      ∃ a : FileAsset,
        env.Download ctx s.trace (TrimSpace (GetAttribute s.doc node attrName)) = (some a, none) ∧
        s1 = { doc := SetAttribute s.doc node attrName (Base a.Name),
               trace := s.trace
                 ++ [Event.download (TrimSpace (GetAttribute s.doc node attrName)),
                     Event.newItem (Base a.Name) a.ContentType,
                     Event.write (Base a.Name) a.Data] }) := by
  cases hattr : HasAttribute s.doc node attrName with
  | false =>
    left
    rw [processURLAttribute_absent env ctx s node attrName baseURL hattr] at h
    exact ⟨rfl, (congrArg Prod.snd h).symm⟩
  | true =>
    right
    refine ⟨rfl, ?_⟩
    cases hres : resolvable env (GetAttribute s.doc node attrName) with
    | false =>
      rw [processURLAttribute_skip_panics env ctx s node attrName baseURL hattr hres] at h
      cases h
    | true =>
      refine ⟨rfl, ?_⟩
      rcases hfetch : env.Download ctx s.trace (TrimSpace (GetAttribute s.doc node attrName))
        with ⟨asset, err⟩
      cases err with
      | some e =>
        rw [processURLAttribute_fetch_error_panics env ctx s node attrName baseURL asset e
          hattr hres hfetch] at h
        cases h
      | none =>
        cases asset with
        | none =>
          rw [processURLAttribute_nil_asset_panics env ctx s node attrName baseURL
            hattr hres hfetch] at h
          cases h
        | some a =>
          refine ⟨a, rfl, ?_⟩
          unfold processURLAttribute at h
          dsimp only at h
          rw [processURL_resolvable env ctx _ _ _ hres, hfetch] at h
          simp only [hattr, Bool.true_eq_false, if_false, ne_eq, not_true_eq_false,
            false_and] at h
          cases hitem : env.NewItem
              (s.trace ++ [Event.download (TrimSpace (GetAttribute s.doc node attrName))])
              (Base a.Name) a.ContentType with
          | some e =>
            simp [hitem] at h
          | none =>
            simp only [hitem] at h
            simp only [List.append_assoc, List.singleton_append] at h
            cases hwrite : env.Write
                (s.trace ++ [Event.download (TrimSpace (GetAttribute s.doc node attrName)),
                  Event.newItem (Base a.Name) a.ContentType])
                (Base a.Name) a.Data with
            | some e =>
              simp [hwrite] at h
            | none =>
              simp only [hwrite] at h
              have := (congrArg Prod.snd h).symm
              simpa using this

theorem processNode_eq (env : Env) (ctx : Context) (s : State) (node : Nat) (baseURL : URL) :
    processNode env ctx s node baseURL = processURLAttribute env ctx s node "src" baseURL := by
  unfold processNode
  rcases h : processURLAttribute env ctx s node "src" baseURL with ⟨r, s1⟩
  cases r with
  | panicked => rfl
  | returned v =>
    cases v <;> rfl

/-! ## Traces and rewrites -/

theorem entryNames_append (t u : List Event) :
    entryNames (t ++ u) = entryNames t ++ entryNames u := by
  induction t with
  | nil => rfl
  | cons e rest ih => cases e <;> simp [entryNames, ih]

theorem fetchedURLs_append (t u : List Event) :
    fetchedURLs (t ++ u) = fetchedURLs t ++ fetchedURLs u := by
  induction t with
  | nil => rfl
  | cons e rest ih => cases e <;> simp [fetchedURLs, ih]

theorem entryNames_assetEvents (doc : Doc) (rw : List (Nat × FileAsset)) :
    entryNames (assetEvents doc rw) = rw.map (fun p => Base p.2.Name) := by
  induction rw with
  | nil => rfl
  | cons p rest ih =>
    obtain ⟨n, a⟩ := p
    simp [assetEvents, entryNames, ih]

theorem fetchedURLs_assetEvents (doc : Doc) (rw : List (Nat × FileAsset)) :
    fetchedURLs (assetEvents doc rw)
      = rw.map (fun p => TrimSpace (GetAttribute doc p.1 "src")) := by
  induction rw with
  | nil => rfl
  | cons p rest ih =>
    obtain ⟨n, a⟩ := p
    simp [assetEvents, fetchedURLs, ih]

/-- The calls for the assets are fetches, entry creations and writes only. -/
theorem mem_assetEvents (doc : Doc) (rw : List (Nat × FileAsset)) (e : Event)
    (h : e ∈ assetEvents doc rw) :
    (∃ u, e = Event.download u) ∨ (∃ n c, e = Event.newItem n c) ∨ (∃ n d, e = Event.write n d) := by
  induction rw with
  | nil => simp [assetEvents] at h
  | cons p rest ih =>
    obtain ⟨n, a⟩ := p
    simp only [assetEvents, List.mem_cons] at h
    rcases h with h | h | h | h
    · exact Or.inl ⟨_, h⟩
    · exact Or.inr (Or.inl ⟨_, _, h⟩)
    · exact Or.inr (Or.inr ⟨_, _, h⟩)
    · exact ih h

theorem assetEvents_congr (d1 d2 : Doc) (rw : List (Nat × FileAsset))
    (h : ∀ p ∈ rw, GetAttribute d1 p.1 "src" = GetAttribute d2 p.1 "src") :
    assetEvents d1 rw = assetEvents d2 rw := by
  induction rw with
  | nil => rfl
  | cons p rest ih =>
    obtain ⟨n, a⟩ := p
    have h1 := h (n, a) (List.mem_cons_self _ _)
    have h2 := ih (fun q hq => h q (List.mem_cons_of_mem _ hq))
    simp only at h1
    simp only [assetEvents, h1, h2]

theorem applyRewrites_getElem?_other (rw : List (Nat × FileAsset)) (doc : Doc) (m : Nat)
    (h : m ∉ rw.map Prod.fst) : (applyRewrites doc rw)[m]? = doc[m]? := by
  induction rw generalizing doc with
  | nil => rfl
  | cons p rest ih =>
    obtain ⟨n, a⟩ := p
    simp only [List.map_cons, List.mem_cons, not_or] at h
    simp only [applyRewrites]
    rw [ih _ h.2, SetAttribute_getElem?_ne doc n m "src" _ h.1]

theorem GetAttribute_applyRewrites_other (rw : List (Nat × FileAsset)) (doc : Doc) (m : Nat)
    (j : String) (h : m ∉ rw.map Prod.fst) :
    GetAttribute (applyRewrites doc rw) m j = GetAttribute doc m j := by
  unfold GetAttribute
  rw [applyRewrites_getElem?_other rw doc m h]

theorem HasAttribute_applyRewrites (rw : List (Nat × FileAsset)) (doc : Doc) (m : Nat)
    (j : String) (h : ∀ p ∈ rw, HasAttribute doc p.1 "src" = true) :
    HasAttribute (applyRewrites doc rw) m j = HasAttribute doc m j := by
  induction rw generalizing doc with
  | nil => rfl
  | cons p rest ih =>
    obtain ⟨n, a⟩ := p
    have hn : HasAttribute doc n "src" = true := h (n, a) (List.mem_cons_self _ _)
    simp only [applyRewrites]
    rw [ih (SetAttribute doc n "src" (Base a.Name)) ?_, HasAttribute_SetAttribute doc n m _ _ j hn]
    intro q hq
    rw [HasAttribute_SetAttribute doc n q.1 _ _ "src" hn]
    exact h q (List.mem_cons_of_mem _ hq)

/-- After the rewrites, each rewritten element carries the base name of its
asset as `src`. -/
theorem GetAttribute_applyRewrites_mem (rw : List (Nat × FileAsset)) (doc : Doc)
    (hnd : (rw.map Prod.fst).Nodup) (h : ∀ p ∈ rw, HasAttribute doc p.1 "src" = true) :
    ∀ p ∈ rw, GetAttribute (applyRewrites doc rw) p.1 "src" = Base p.2.Name := by
  induction rw generalizing doc with
  | nil => intro p hp; cases hp
  | cons q rest ih =>
    obtain ⟨n, a⟩ := q
    have hn : HasAttribute doc n "src" = true := h (n, a) (List.mem_cons_self _ _)
    simp only [List.map_cons, List.nodup_cons] at hnd
    intro p hp
    simp only [applyRewrites]
    rcases List.mem_cons.mp hp with rfl | hp
    · rw [GetAttribute_applyRewrites_other rest _ n "src" hnd.1]
      exact GetAttribute_SetAttribute_self doc n "src" _ hn
    · refine ih (SetAttribute doc n "src" (Base a.Name)) hnd.2 ?_ p hp
      intro q hq
      rw [HasAttribute_SetAttribute doc n q.1 _ _ "src" hn]
      exact h q (List.mem_cons_of_mem _ hq)

/-- The entry names of the assets are the `src` values of the rewritten
elements in the final tree. -/
theorem names_eq_final_src (rw : List (Nat × FileAsset)) (doc : Doc)
    (hnd : (rw.map Prod.fst).Nodup) (h : ∀ p ∈ rw, HasAttribute doc p.1 "src" = true) :
    rw.map (fun p => Base p.2.Name)
      = (rw.map Prod.fst).map (fun n => GetAttribute (applyRewrites doc rw) n "src") := by
  rw [List.map_map]
  apply List.map_congr_left
  intro p hp
  exact (GetAttribute_applyRewrites_mem rw doc hnd h p hp).symm

/-! ## The walk over the img elements: `processNodes` -/

theorem fetchedBy_congr (env : Env) (ctx : Context) (d1 d2 : Doc)
    (rw : List (Nat × FileAsset)) (trace : List Event)
    (h : ∀ p ∈ rw, GetAttribute d1 p.1 "src" = GetAttribute d2 p.1 "src") :
    fetchedBy env ctx d1 trace rw = fetchedBy env ctx d2 trace rw := by
  induction rw generalizing trace with
  | nil => rfl
  | cons p rest ih =>
    obtain ⟨n, a⟩ := p
    have h1 := h (n, a) (List.mem_cons_self _ _)
    have h2 := fun t => ih t (fun q hq => h q (List.mem_cons_of_mem _ hq))
    simp only at h1
    simp only [fetchedBy, h1, h2]

theorem filter_HasAttribute_SetAttribute (doc : Doc) (node : Nat) (v : String)
    (rest : List Nat) (hn : HasAttribute doc node "src" = true) :
    rest.filter (fun n => HasAttribute (SetAttribute doc node "src" v) n "src")
      = rest.filter (fun n => HasAttribute doc n "src") := by
  apply List.filter_congr
  intro n _
  exact HasAttribute_SetAttribute doc node n "src" v "src" hn

/-- A walk that ends with a nil error has fetched an asset for every listed
element that carries `src`, in the order of the list: the assets are the ones
the downloader returned, the calls made are the calls for these assets and the
tree is the tree after these rewrites. -/
theorem processNodes_returned_nil (env : Env) (ctx : Context) (baseURL : URL) :
    ∀ (nodes : List Nat) (s s1 : State), nodes.Nodup →
      processNodes env ctx baseURL nodes s = (Run.returned none, s1) →
      ∃ rw : List (Nat × FileAsset),
        rw.map Prod.fst = nodes.filter (fun n => HasAttribute s.doc n "src") ∧
        fetchedBy env ctx s.doc s.trace rw = true ∧
        s1.trace = s.trace ++ assetEvents s.doc rw ∧
        s1.doc = applyRewrites s.doc rw ∧
        ∀ p ∈ rw, resolvable env (GetAttribute s.doc p.1 "src") = true := by
  intro nodes
  induction nodes with
  | nil =>
    intro s s1 _ h
    simp only [processNodes, Prod.mk.injEq, true_and] at h
    subst h
    exact ⟨[], rfl, rfl, by simp [assetEvents], rfl, by simp⟩
  | cons node rest ih =>
    intro s s1 hnd h
    simp only [List.nodup_cons] at hnd
    unfold processNodes at h
    rw [processNode_eq] at h
    rcases hstep : processURLAttribute env ctx s node "src" baseURL with ⟨r, s2⟩
    rw [hstep] at h
    cases r with
    | panicked => simp at h
    | returned v =>
      cases v with
      | some e => simp at h
      | none =>
        simp only at h
        rcases processURLAttribute_returned_nil env ctx s s2 node "src" baseURL hstep with
          ⟨hattr, rfl⟩ | ⟨hattr, hres, a, hfetch, rfl⟩
        · obtain ⟨rw, h1, hf, h2, h3, h4⟩ := ih s2 s1 hnd.2 h
          refine ⟨rw, ?_, hf, h2, h3, h4⟩
          rw [h1, List.filter_cons]
          simp [hattr]
        · obtain ⟨rw, h1, hf, h2, h3, h4⟩ := ih _ s1 hnd.2 h
          simp only at h1 hf h2 h3 h4
          rw [filter_HasAttribute_SetAttribute s.doc node _ rest hattr] at h1
          have hmem : ∀ p ∈ rw, p.1 ≠ node := by
            intro p hp e
            have : p.1 ∈ rw.map Prod.fst := List.mem_map_of_mem Prod.fst hp
            rw [h1] at this
            exact hnd.1 (e ▸ (List.mem_filter.mp this).1)
          have hget : ∀ p ∈ rw,
              GetAttribute (SetAttribute s.doc node "src" (Base a.Name)) p.1 "src"
                = GetAttribute s.doc p.1 "src" := fun p hp =>
            GetAttribute_SetAttribute_ne s.doc node p.1 "src" _ "src" (hmem p hp)
          refine ⟨(node, a) :: rw, ?_, ?_, ?_, ?_, ?_⟩
          · rw [List.filter_cons]
            simp [hattr, h1]
          · rw [fetchedBy_congr env ctx _ _ rw _ hget] at hf
            simp only [fetchedBy, hfetch, hf, decide_True, Bool.and_self]
          · rw [h2, assetEvents_congr _ _ rw hget]
            simp [assetEvents]
          · rw [h3]
            rfl
          · intro p hp
            rcases List.mem_cons.mp hp with rfl | hp
            · exact hres
            · rw [← hget p hp]
              exact h4 p hp

/-- When every listed element that carries `src` has a resolvable reference
whose download succeeds, and the package writer accepts every entry and
every write, the walk ends with a nil error after fetching an asset for each
of these elements, in the order of the list. -/
theorem processNodes_all_fetched (env : Env) (ctx : Context) (baseURL : URL)
    (hitem : ∀ t n c, env.NewItem t n c = none) (hwrite : ∀ t n d, env.Write t n d = none) :
    ∀ (nodes : List Nat) (s : State), nodes.Nodup →
      (∀ n ∈ nodes, HasAttribute s.doc n "src" = true →
        resolvable env (GetAttribute s.doc n "src") = true ∧
        ∀ t, ∃ a : FileAsset,
          env.Download ctx t (TrimSpace (GetAttribute s.doc n "src")) = (some a, none)) →
      ∃ rw : List (Nat × FileAsset),
        rw.map Prod.fst = nodes.filter (fun n => HasAttribute s.doc n "src") ∧
        fetchedBy env ctx s.doc s.trace rw = true ∧
        processNodes env ctx baseURL nodes s =
          (Run.returned none,
            { doc := applyRewrites s.doc rw, trace := s.trace ++ assetEvents s.doc rw }) := by
  intro nodes
  induction nodes with
  | nil =>
    intro s _ _
    exact ⟨[], rfl, rfl, by simp [processNodes, assetEvents, applyRewrites]⟩
  | cons node rest ih =>
    intro s hnd hall
    simp only [List.nodup_cons] at hnd
    cases hattr : HasAttribute s.doc node "src" with
    | false =>
      obtain ⟨rw, h1, hf, h2⟩ := ih s hnd.2 (fun n hn => hall n (List.mem_cons_of_mem _ hn))
      refine ⟨rw, ?_, hf, ?_⟩
      · rw [h1, List.filter_cons]
        simp [hattr]
      · unfold processNodes
        rw [processNode_eq, processURLAttribute_absent env ctx s node "src" baseURL hattr]
        exact h2
    | true =>
      obtain ⟨hres, hdl⟩ := hall node (List.mem_cons_self _ _) hattr
      obtain ⟨a, ha⟩ := hdl s.trace
      have hstep := processURLAttribute_fetched env ctx s node "src" baseURL a hattr hres ha
        (hitem _ _ _) (hwrite _ _ _)
      have hne : ∀ n ∈ rest, n ≠ node := fun n hn e => hnd.1 (e ▸ hn)
      have hget : ∀ n ∈ rest,
          GetAttribute (SetAttribute s.doc node "src" (Base a.Name)) n "src"
            = GetAttribute s.doc n "src" := fun n hn =>
        GetAttribute_SetAttribute_ne s.doc node n "src" _ "src" (hne n hn)
      obtain ⟨rw, h1, hf, h2⟩ := ih
        { doc := SetAttribute s.doc node "src" (Base a.Name),
          trace := s.trace ++ [Event.download (TrimSpace (GetAttribute s.doc node "src")),
            Event.newItem (Base a.Name) a.ContentType, Event.write (Base a.Name) a.Data] }
        hnd.2
        (by
          intro n hn hhas
          simp only at hhas ⊢
          rw [HasAttribute_SetAttribute s.doc node n "src" _ "src" hattr] at hhas
          rw [hget n hn]
          exact hall n (List.mem_cons_of_mem _ hn) hhas)
      simp only at h1 hf h2
      rw [filter_HasAttribute_SetAttribute s.doc node _ rest hattr] at h1
      have hget2 : ∀ p ∈ rw,
          GetAttribute (SetAttribute s.doc node "src" (Base a.Name)) p.1 "src"
            = GetAttribute s.doc p.1 "src" := by
        intro p hp
        have : p.1 ∈ rw.map Prod.fst := List.mem_map_of_mem Prod.fst hp
        rw [h1] at this
        exact hget p.1 (List.mem_filter.mp this).1
      refine ⟨(node, a) :: rw, ?_, ?_, ?_⟩
      · rw [List.filter_cons]
        simp [hattr, h1]
      · rw [fetchedBy_congr env ctx _ _ rw _ hget2] at hf
        simp only [fetchedBy, ha, hf, decide_True, Bool.and_self]
      · unfold processNodes
        rw [processNode_eq, hstep]
        simp only
        rw [h2, assetEvents_congr _ _ rw hget2]
        simp [assetEvents, applyRewrites]

/-! ## The orchestrator: `exportEpub` -/

/-- When the sink accepts every write, all blocks are written. -/
theorem writeBlocks_accepted (env : Env) (entry : String)
    (hwrite : ∀ t n d, env.Write t n d = none) (blocks : List Bytes) (trace : List Event) :
    writeBlocks env entry blocks trace
      = (none, trace ++ blocks.map (fun b => Event.write entry b)) := by
  induction blocks generalizing trace with
  | nil => simp [writeBlocks]
  | cons b rest ih => simp [writeBlocks, hwrite, ih]

/-- Writes that end without error have written all blocks. -/
theorem writeBlocks_returned_nil (env : Env) (entry : String) (blocks : List Bytes)
    (trace trace1 : List Event) (h : writeBlocks env entry blocks trace = (none, trace1)) :
    trace1 = trace ++ blocks.map (fun b => Event.write entry b) := by
  induction blocks generalizing trace with
  | nil =>
    simp only [writeBlocks, Prod.mk.injEq, true_and] at h
    simp [h]
  | cons b rest ih =>
    unfold writeBlocks at h
    cases hw : env.Write trace entry b with
    | some e => simp [hw] at h
    | none =>
      simp only [hw] at h
      rw [ih _ h]
      simp

theorem entryNames_map_write (entry : String) (blocks : List Bytes) :
    entryNames (blocks.map (fun b => Event.write entry b)) = [] := by
  induction blocks with
  | nil => rfl
  | cons b rest ih => simp [entryNames, ih]

/-- A base URL that is not absolute ends `exportEpub` at once. -/
theorem exportEpub_invalid_base_eq (env : Env) (ctx : Context) (input : Bytes)
    (trace : List Event) (baseURL : String) (h : absoluteURL env baseURL = false) :
    exportEpub env ctx input trace baseURL =
      (Run.returned (some (GoError.errorf ("url \"" ++ baseURL ++ "\" is not valid"))),
        { doc := [], trace := trace }) := by
  unfold exportEpub
  cases hp : env.ParseRequestURI baseURL with
  | error e => rfl
  | ok u =>
    have := (absoluteURL_eq_false_iff env baseURL).mp h u hp
    simp only [this, if_true]

theorem absoluteURL_eq_true (env : Env) (s : String) (u : URL)
    (hp : env.ParseRequestURI s = Except.ok u) (h : ¬ (u.Scheme = "" ∨ u.Hostname = "")) :
    absoluteURL env s = true := by
  unfold absoluteURL
  simp only [hp]
  simp only [not_or] at h
  simp [h.1, h.2]

/-- A conversion that ends with a nil error: the base URL is absolute, the
input was parsed, an asset was fetched for every img element that carries
`src`, and the calls made are the container initialisation, the calls for the
assets in document order, the creation of "article.xhtml", the writes of the
blocks of the serialised tree into it, and the write of the descriptor. -/
theorem exportEpub_returned_nil (env : Env) (ctx : Context) (input : Bytes)
    (t0 : List Event) (baseURL : String) (s1 : State)
    (h : exportEpub env ctx input t0 baseURL = (Run.returned none, s1)) :
    ∃ (doc : Doc) (rw : List (Nat × FileAsset)) (blocks : List Bytes),
      absoluteURL env baseURL = true ∧
      env.Parse input = Except.ok doc ∧
      rw.map Prod.fst = imagesWithSrc doc ∧
      fetchedBy env ctx doc (t0 ++ [Event.newContainer]) rw = true ∧
      s1.doc = applyRewrites doc rw ∧
      env.Render s1.doc = (blocks, none) ∧
      s1.trace = t0 ++ Event.newContainer :: (assetEvents doc rw ++
        Event.newItem "article.xhtml" "application/xhtml+xml" ::
          (blocks.map (fun b => Event.write "article.xhtml" b) ++
            [Event.writeOPF "content.opf" "article.xhtml"])) ∧
      ∀ p ∈ rw, resolvable env (GetAttribute doc p.1 "src") = true := by
  unfold exportEpub at h
  cases hp : env.ParseRequestURI baseURL with
  | error e => simp [hp] at h
  | ok u =>
    simp only [hp] at h
    by_cases hu : u.Scheme = "" ∨ u.Hostname = ""
    · simp [hu] at h
    simp only [hu, if_false] at h
    cases hc : env.NewContainer t0 with
    | some e => simp [hc] at h
    | none =>
      simp only [hc] at h
      cases hd : env.Parse input with
      | error e => simp [hd] at h
      | ok doc =>
        simp only [hd] at h
        rcases hloop : processNodes env ctx u (GetElementsByTagName doc "img")
          { doc := doc, trace := t0 ++ [Event.newContainer] } with ⟨r, s2⟩
        rw [hloop] at h
        cases r with
        | panicked => simp at h
        | returned v =>
          cases v with
          | some e => simp at h
          | none =>
            simp only at h
            obtain ⟨rw, h1, hf, h2, h3, h4⟩ := processNodes_returned_nil env ctx u _ _ s2
              (GetElementsByTagName_nodup doc "img") hloop
            simp only at h1 hf h2 h3 h4
            cases hi : env.NewItem s2.trace "article.xhtml" "application/xhtml+xml" with
            | some e => simp [hi] at h
            | none =>
              simp only [hi] at h
              rcases hr : env.Render s2.doc with ⟨blocks, renderErr⟩
              simp only [hr] at h
              rcases hw : writeBlocks env "article.xhtml" blocks
                (s2.trace ++ [Event.newItem "article.xhtml" "application/xhtml+xml"])
                with ⟨werr, trace3⟩
              simp only [hw] at h
              cases werr with
              | some e => simp at h
              | none =>
                cases renderErr with
                | some e => simp at h
                | none =>
                  simp only [Prod.mk.injEq, Run.returned.injEq] at h
                  obtain ⟨_, rfl⟩ := h
                  have ht := writeBlocks_returned_nil env _ blocks _ trace3 hw
                  refine ⟨doc, rw, blocks, absoluteURL_eq_true env baseURL u hp hu, rfl, h1, hf,
                    h3, hr, ?_, h4⟩
                  simp [ht, h2]

/-- When the base URL is absolute, the container is initialised, the input is
parsed, the tree can be serialised, the package writer accepts every entry
and every write, and every img element that carries `src` has a resolvable
reference whose download succeeds, the conversion runs to its end: an asset
is fetched for each of these elements, in document order, then
"article.xhtml" is created and written, then the descriptor is written. -/
theorem exportEpub_all_fetched (env : Env) (ctx : Context) (input : Bytes)
    (t0 : List Event) (baseURL : String) (doc : Doc)
    (hbase : absoluteURL env baseURL = true)
    (hcontainer : env.NewContainer t0 = none)
    (hparse : env.Parse input = Except.ok doc)
    (hrender : ∀ d, ∃ blocks, env.Render d = (blocks, none))
    (hitem : ∀ t n c, env.NewItem t n c = none)
    (hwrite : ∀ t n d, env.Write t n d = none)
    (himgs : ∀ n ∈ imagesWithSrc doc,
      resolvable env (GetAttribute doc n "src") = true ∧
      ∀ t, ∃ a : FileAsset,
        env.Download ctx t (TrimSpace (GetAttribute doc n "src")) = (some a, none)) :
    ∃ (rw : List (Nat × FileAsset)) (blocks : List Bytes),
      rw.map Prod.fst = imagesWithSrc doc ∧
      fetchedBy env ctx doc (t0 ++ [Event.newContainer]) rw = true ∧
      env.Render (applyRewrites doc rw) = (blocks, none) ∧
      exportEpub env ctx input t0 baseURL =
        (Run.returned (env.WriteOPF
            (t0 ++ Event.newContainer :: (assetEvents doc rw ++
              Event.newItem "article.xhtml" "application/xhtml+xml" ::
                blocks.map (fun b => Event.write "article.xhtml" b)))
            "content.opf" "article.xhtml"),
          { doc := applyRewrites doc rw,
            trace := t0 ++ Event.newContainer :: (assetEvents doc rw ++
              Event.newItem "article.xhtml" "application/xhtml+xml" ::
                (blocks.map (fun b => Event.write "article.xhtml" b) ++
                  [Event.writeOPF "content.opf" "article.xhtml"])) }) := by
  unfold absoluteURL at hbase
  cases hp : env.ParseRequestURI baseURL with
  | error e => simp [hp] at hbase
  | ok u =>
    simp only [hp, Bool.and_eq_true, Bool.not_eq_true', beq_eq_false_iff_ne, ne_eq] at hbase
    obtain ⟨rw, h1, hf, h2⟩ := processNodes_all_fetched env ctx u hitem hwrite
      (GetElementsByTagName doc "img") { doc := doc, trace := t0 ++ [Event.newContainer] }
      (GetElementsByTagName_nodup doc "img")
      (by
        intro n hn hhas
        exact himgs n (List.mem_filter.mpr ⟨hn, hhas⟩))
    obtain ⟨blocks, hb⟩ := hrender (applyRewrites doc rw)
    refine ⟨rw, blocks, h1, hf, hb, ?_⟩
    unfold exportEpub
    simp only [hp, hbase.1, hbase.2, or_self, if_false, hcontainer, hparse, h2, hitem, hb,
      writeBlocks_accepted env _ hwrite]
    simp

/-! ## The error of a failed download is not looked at -/

/-- The result of `processURL` is the same for two downloaders whose answers
are the same up to the error of a failure. -/
theorem processURL_sameUpToError (env : Env)
    (other : Context → List Event → String → Option FileAsset × Option GoError)
    (hsame : ∀ c t u, sameUpToError (env.Download c t u) (other c t u) = true)
    (ctx : Context) (url parentURL : String) (trace : List Event) :
    processURL { env with Download := other } ctx url parentURL trace
      = processURL env ctx url parentURL trace := by
  cases h : resolvable env url with
  | false =>
    rw [processURL_skip env ctx url parentURL trace h,
      processURL_skip { env with Download := other } ctx url parentURL trace h]
  | true =>
    rw [processURL_resolvable env ctx url parentURL trace h,
      processURL_resolvable { env with Download := other } ctx url parentURL trace h]
    have := hsame ctx trace (TrimSpace url)
    simp only
    rcases h1 : env.Download ctx trace (TrimSpace url) with ⟨a, _ | e⟩ <;>
      rcases h2 : other ctx trace (TrimSpace url) with ⟨b, _ | f⟩ <;>
      simp [h1, h2, sameUpToError] at this ⊢
    exact this.symm

theorem processURLAttribute_sameUpToError (env : Env)
    (other : Context → List Event → String → Option FileAsset × Option GoError)
    (hsame : ∀ c t u, sameUpToError (env.Download c t u) (other c t u) = true)
    (ctx : Context) (s : State) (node : Nat) (attrName : String) (baseURL : URL) :
    processURLAttribute { env with Download := other } ctx s node attrName baseURL
      = processURLAttribute env ctx s node attrName baseURL := by
  unfold processURLAttribute
  dsimp only
  rw [processURL_sameUpToError env other hsame]

theorem processNodes_sameUpToError (env : Env)
    (other : Context → List Event → String → Option FileAsset × Option GoError)
    (hsame : ∀ c t u, sameUpToError (env.Download c t u) (other c t u) = true)
    (ctx : Context) (baseURL : URL) (nodes : List Nat) (s : State) :
    processNodes { env with Download := other } ctx baseURL nodes s
      = processNodes env ctx baseURL nodes s := by
  induction nodes generalizing s with
  | nil => rfl
  | cons node rest ih =>
    unfold processNodes
    rw [processNode_eq, processNode_eq, processURLAttribute_sameUpToError env other hsame]
    rcases processURLAttribute env ctx s node "src" baseURL with ⟨r, s1⟩
    cases r with
    | panicked => rfl
    | returned v =>
      cases v with
      | some e => rfl
      | none => exact ih s1

theorem writeBlocks_sameUpToError (env : Env)
    (other : Context → List Event → String → Option FileAsset × Option GoError)
    (entry : String) (blocks : List Bytes) (trace : List Event) :
    writeBlocks { env with Download := other } entry blocks trace
      = writeBlocks env entry blocks trace := by
  induction blocks generalizing trace with
  | nil => rfl
  | cons b rest ih =>
    unfold writeBlocks
    simp only [ih]

/-- The result of `exportEpub` is the same for two downloaders whose answers
are the same up to the error of a failure. -/
theorem exportEpub_sameUpToError (env : Env)
    (other : Context → List Event → String → Option FileAsset × Option GoError)
    (hsame : ∀ c t u, sameUpToError (env.Download c t u) (other c t u) = true)
    (ctx : Context) (input : Bytes) (t0 : List Event) (baseURL : String) :
    exportEpub { env with Download := other } ctx input t0 baseURL
      = exportEpub env ctx input t0 baseURL := by
  unfold exportEpub
  simp only [processNodes_sameUpToError env other hsame, writeBlocks_sameUpToError]

/-! ## The rewrites leave the structure of the tree alone -/

theorem SetAttribute_length (doc : Doc) (node : Nat) (k v : String) :
    (SetAttribute doc node k v).length = doc.length := by
  unfold SetAttribute
  cases doc[node]? <;> simp

theorem SetAttribute_shape (doc : Doc) (node i : Nat) (k v : String) :
    ((SetAttribute doc node k v)[i]?).map (fun x => (x.Typ, x.Data, x.depth))
      = (doc[i]?).map (fun x => (x.Typ, x.Data, x.depth)) := by
  by_cases hi : i = node
  · subst hi
    cases hn : doc[i]? with
    | none => simp [SetAttribute, hn]
    | some n => rw [SetAttribute_getElem?_self doc i k v n hn]; rfl
  · rw [SetAttribute_getElem?_ne doc node i k v hi]

theorem applyRewrites_length (rw : List (Nat × FileAsset)) (doc : Doc) :
    (applyRewrites doc rw).length = doc.length := by
  induction rw generalizing doc with
  | nil => rfl
  | cons p rest ih =>
    obtain ⟨n, a⟩ := p
    simp only [applyRewrites]
    rw [ih, SetAttribute_length]

theorem applyRewrites_shape (rw : List (Nat × FileAsset)) (doc : Doc) (i : Nat) :
    ((applyRewrites doc rw)[i]?).map (fun x => (x.Typ, x.Data, x.depth))
      = (doc[i]?).map (fun x => (x.Typ, x.Data, x.depth)) := by
  induction rw generalizing doc with
  | nil => rfl
  | cons p rest ih =>
    obtain ⟨n, a⟩ := p
    simp only [applyRewrites]
    rw [ih, SetAttribute_shape]

theorem GetElementsByTagName_applyRewrites (rw : List (Nat × FileAsset)) (doc : Doc)
    (tagName : String) :
    GetElementsByTagName (applyRewrites doc rw) tagName = GetElementsByTagName doc tagName := by
  unfold GetElementsByTagName
  rw [applyRewrites_length]
  apply List.filter_congr
  intro i _
  have h := applyRewrites_shape rw doc i
  cases h1 : (applyRewrites doc rw)[i]? with
  | none =>
    cases h2 : doc[i]? with
    | none => rfl
    | some n => simp [h1, h2] at h
  | some m =>
    cases h2 : doc[i]? with
    | none => simp [h1, h2] at h
    | some n =>
      simp only [h1, h2, Option.map_some', Option.some.injEq, Prod.mk.injEq] at h
      simp only [h.1, h.2.1]

theorem imagesWithSrc_applyRewrites (rw : List (Nat × FileAsset)) (doc : Doc)
    (h : ∀ p ∈ rw, HasAttribute doc p.1 "src" = true) :
    imagesWithSrc (applyRewrites doc rw) = imagesWithSrc doc := by
  unfold imagesWithSrc
  rw [GetElementsByTagName_applyRewrites]
  apply List.filter_congr
  intro n _
  exact HasAttribute_applyRewrites rw doc n "src" h

/-- The elements of a rewrite list that covers the img elements with `src`
carry `src`. -/
theorem HasAttribute_of_covers (rw : List (Nat × FileAsset)) (doc : Doc)
    (h : rw.map Prod.fst = imagesWithSrc doc) :
    ∀ p ∈ rw, HasAttribute doc p.1 "src" = true := by
  intro p hp
  have : p.1 ∈ rw.map Prod.fst := List.mem_map_of_mem Prod.fst hp
  rw [h] at this
  exact (List.mem_filter.mp this).2

/-! ## The claims -/

/-- C1 (the code departs from the claim).  The claim: an img element whose
`src` is classified Skip is left unchanged without error and the walk goes on.
The code: on the document with `src="https://cdn.x/a.png"` followed by
`src="#thumb"`, the first image is fetched, stored as "a.png" and rewritten,
and at the second element, classified Skip, `exportEpub` panics on the nil
asset instead of going on; no primary document and no descriptor is
written. -/
theorem exportEpub_skip_reference_panics :
    resolvable (fixtureEnv docSkip) "#thumb" = false ∧
    exportEpub (fixtureEnv docSkip) liveCtx [] [] postURL =
      (Run.panicked,
        { doc := page [img [⟨"src", "a.png"⟩], img [⟨"src", "#thumb"⟩]],
          trace := [Event.newContainer, Event.download "https://cdn.x/a.png",
            Event.newItem "a.png" "image/png", Event.write "a.png" [65, 65, 65]] }) := by
  decide

/-- C2 (the code departs from the claim).  The claim: when the download of a
resolvable reference fails, the element is left unchanged without error and
the conversion is not aborted.  The code: on the document with
`src="https://cdn.x/a.png"` followed by `src="https://cdn.x/missing.png"`,
whose download fails, `exportEpub` panics on the nil asset right after the
failed fetch; the attribute is unchanged and no entry is created for it, but
the conversion is aborted. -/
theorem exportEpub_failed_fetch_panics :
    resolvable (fixtureEnv docMissing) "https://cdn.x/missing.png" = true ∧
    fixtureDownload liveCtx
        [Event.newContainer, Event.download "https://cdn.x/a.png",
          Event.newItem "a.png" "image/png", Event.write "a.png" [65, 65, 65]]
        "https://cdn.x/missing.png"
      = (none, some (GoError.other "404 Not Found")) ∧
    exportEpub (fixtureEnv docMissing) liveCtx [] [] postURL =
      (Run.panicked,
        { doc := page [img [⟨"src", "a.png"⟩], img [⟨"src", "https://cdn.x/missing.png"⟩]],
          trace := [Event.newContainer, Event.download "https://cdn.x/a.png",
            Event.newItem "a.png" "image/png", Event.write "a.png" [65, 65, 65],
            Event.download "https://cdn.x/missing.png"] }) := by
  decide

/-- C3.  For every reference, base URL and downloader, `processURL` calls the
downloader if and only if the reference is resolvable (trimmed of white space
it is not empty, does not begin with "#" or "data:", and parses on its own as
an absolute URL with scheme and host); it then calls it exactly once, with the
trimmed reference.  Otherwise it makes no call.  The base URL argument has no
influence on the outcome. -/
theorem processURL_fetches_iff_resolvable (env : Env) (ctx : Context)
    (url parentURL : String) (trace : List Event) :
    (processURL env ctx url parentURL trace).2 =
        (if resolvable env url = true then trace ++ [Event.download (TrimSpace url)]
          else trace) ∧
    ∀ other : String,
      processURL env ctx url other trace = processURL env ctx url parentURL trace := by
  cases h : resolvable env url with
  | false =>
    refine ⟨?_, fun other => ?_⟩
    · rw [processURL_skip env ctx url parentURL trace h]
      simp
    · rw [processURL_skip env ctx url parentURL trace h, processURL_skip env ctx url other trace h]
  | true =>
    refine ⟨?_, fun other => ?_⟩
    · rw [processURL_resolvable env ctx url parentURL trace h]
      simp
    · rw [processURL_resolvable env ctx url parentURL trace h,
        processURL_resolvable env ctx url other trace h]

/-- C4.  For an img element whose `src` is resolvable, whose download succeeds
with the asset `a`, and whose entry and write the package writer accepts,
`processURLAttribute` returns nil after exactly three calls: the fetch, the
creation of one entry named `path.Base(a.Name)` with the content type of the
asset, and the write of exactly `a.Data` into it.  That name holds no
directory part: it has no slash, and for a name `dir/file` it is `file`.  The
`src` of the element is then that name; the value of the first `src` attribute
is the only thing that changed in the element, and every other node of the
tree is as before. -/
theorem processURLAttribute_embeds_asset (env : Env) (ctx : Context) (s : State)
    (node : Nat) (baseURL : URL) (a : FileAsset)
    (hattr : HasAttribute s.doc node "src" = true)
    (hres : resolvable env (GetAttribute s.doc node "src") = true)
    (hfetch : env.Download ctx s.trace (TrimSpace (GetAttribute s.doc node "src"))
      = (some a, none))
    (hitem : env.NewItem
      (s.trace ++ [Event.download (TrimSpace (GetAttribute s.doc node "src"))])
      (Base a.Name) a.ContentType = none)
    (hwrite : env.Write
      (s.trace ++ [Event.download (TrimSpace (GetAttribute s.doc node "src")),
        Event.newItem (Base a.Name) a.ContentType])
      (Base a.Name) a.Data = none) :
    ∃ s1 : State,
      processURLAttribute env ctx s node "src" baseURL = (Run.returned none, s1) ∧
      s1.trace = s.trace ++ [Event.download (TrimSpace (GetAttribute s.doc node "src")),
        Event.newItem (Base a.Name) a.ContentType, Event.write (Base a.Name) a.Data] ∧
      entryNames s1.trace = entryNames s.trace ++ [Base a.Name] ∧
      (Base a.Name = "/" ∨ '/' ∉ (Base a.Name).data) ∧
      (∀ dir file : List Char, a.Name = String.mk (dir ++ '/' :: file) → file ≠ [] →
        '/' ∉ file → Base a.Name = String.mk file) ∧
      GetAttribute s1.doc node "src" = Base a.Name ∧
      s1.doc.length = s.doc.length ∧
      (∀ m, m ≠ node → s1.doc[m]? = s.doc[m]?) ∧
      ∃ (n : Node) (before after : List Attribute) (x : Attribute),
        s.doc[node]? = some n ∧ n.Attr = before ++ x :: after ∧ x.Key = "src" ∧
        (∀ b ∈ before, b.Key ≠ "src") ∧
        s1.doc[node]? =
          some { n with Attr := before ++ { x with Val := Base a.Name } :: after } := by
  refine ⟨_, processURLAttribute_fetched env ctx s node "src" baseURL a hattr hres hfetch
    hitem hwrite, rfl, ?_, Base_no_slash a.Name, ?_, ?_, ?_, ?_, ?_⟩
  · simp [entryNames_append, entryNames]
  · intro dir file hname h1 h2
    rw [hname]
    exact Base_join dir file h1 h2
  · exact GetAttribute_SetAttribute_self s.doc node "src" _ hattr
  · exact SetAttribute_length s.doc node "src" _
  · intro m hm
    exact SetAttribute_getElem?_ne s.doc node m "src" _ hm
  · obtain ⟨n, hn, hany⟩ := HasAttribute_some s.doc node "src" hattr
    obtain ⟨before, x, after, e1, e2, e3, e4⟩ := setAttr_of_present n.Attr "src" (Base a.Name) hany
    refine ⟨n, before, after, x, hn, e1, e2, e3, ?_⟩
    simp only
    rw [SetAttribute_getElem?_self s.doc node "src" _ n hn, e4]

/-- C4 at a concrete input: the img element at position 3 of `docOne`, whose
`src` is " https://cdn.x/pics/b.png " and whose asset is named "pics/b.png",
gets the entry "b.png" and `src="b.png"`. -/
theorem processURLAttribute_embeds_asset_witness :
    ∃ s1 : State,
      processURLAttribute (fixtureEnv docOne) liveCtx { doc := docOne, trace := [] } 3 "src"
        { Scheme := "https", Hostname := "example.org", str := postURL }
        = (Run.returned none, s1) ∧
      s1.trace = [Event.download "https://cdn.x/pics/b.png",
        Event.newItem "b.png" "image/png", Event.write "b.png" [66]] ∧
      GetAttribute s1.doc 3 "src" = "b.png" := by
  obtain ⟨s1, h1, h2, _, _, _, h5, _⟩ := processURLAttribute_embeds_asset (fixtureEnv docOne)
    liveCtx { doc := docOne, trace := [] } 3
    { Scheme := "https", Hostname := "example.org", str := postURL }
    { Data := [66], ContentType := "image/png", Name := "pics/b.png" }
    (by decide) (by decide) (by decide) rfl rfl
  refine ⟨s1, h1, ?_, ?_⟩
  · rw [h2]
    decide
  · rw [h5]
    decide

/-- C5.  For every base URL that does not parse as an absolute URL with a
scheme and a host, and for every input document, `exportEpub` returns the
error `url "<base>" is not valid` without any call: no fetch, no container
initialisation, no entry.  `Export` on an article with that URL then returns
an error and no packaged document, having called nothing but `Close`; when
the template and `NewWriter` succeed, the error is that same error. -/
theorem exportEpub_rejects_invalid_base (env : Env) (ctx : Context) (input : Bytes)
    (trace : List Event) (baseURL : String) (hbad : absoluteURL env baseURL = false) :
    exportEpub env ctx input trace baseURL =
      (Run.returned (some (GoError.errorf ("url \"" ++ baseURL ++ "\" is not valid"))),
        { doc := [], trace := trace }) ∧
    ∀ article : Article, article.URL = some baseURL →
      (∃ err : GoError, (Export env ctx article).1 = Run.returned (none, some err)) ∧
      (∀ e ∈ (Export env ctx article).2, e = Event.close) ∧
      (∀ buffer, env.Execute article = Except.ok buffer → env.NewWriter article.Title = none →
        (Export env ctx article).1 = Run.returned
          (none, some (GoError.errorf ("url \"" ++ baseURL ++ "\" is not valid")))) := by
  refine ⟨exportEpub_invalid_base_eq env ctx input trace baseURL hbad, ?_⟩
  intro article hurl
  unfold Export
  cases hx : env.Execute article with
  | error e => exact ⟨⟨e, rfl⟩, by simp, by intro b hb; cases hb⟩
  | ok buffer =>
    cases hw : env.NewWriter article.Title with
    | some e => exact ⟨⟨e, rfl⟩, by simp, by intro b _ hn; cases hn⟩
    | none =>
      simp only [hurl, exportEpub_invalid_base_eq env ctx buffer [] baseURL hbad]
      exact ⟨⟨_, rfl⟩, by simp, by intro b _ _; trivial⟩

/-- C5 at a concrete input: the base URL "not-a-url". -/
theorem exportEpub_rejects_invalid_base_witness :
    absoluteURL (fixtureEnv docSkip) "not-a-url" = false ∧
    exportEpub (fixtureEnv docSkip) liveCtx [] [] "not-a-url" =
      (Run.returned (some (GoError.errorf "url \"not-a-url\" is not valid")),
        { doc := [], trace := [] }) ∧
    (Export (fixtureEnv docSkip) liveCtx
        { Title := "My Article. ", URL := some "not-a-url", HTML := none }).1
      = Run.returned (none, some (GoError.errorf "url \"not-a-url\" is not valid")) :=
  ⟨by decide,
    (exportEpub_rejects_invalid_base (fixtureEnv docSkip) liveCtx [] [] "not-a-url"
      (by decide)).1,
    ((exportEpub_rejects_invalid_base (fixtureEnv docSkip) liveCtx [] [] "not-a-url"
      (by decide)).2 { Title := "My Article. ", URL := some "not-a-url", HTML := none }
      rfl).2.2 [] rfl rfl⟩

/-- C6 (refuted as stated).  Two img elements that reference the same URL: the
conversion succeeds and creates the entry "a.png" twice. -/
theorem exportEpub_duplicate_entry_names :
    (exportEpub (fixtureEnv docTwice) liveCtx [] [] postURL).1 = Run.returned none ∧
    entryNames (exportEpub (fixtureEnv docTwice) liveCtx [] [] postURL).2.trace
      = ["a.png", "a.png", "article.xhtml"] ∧
    ¬ (entryNames (exportEpub (fixtureEnv docTwice) liveCtx [] [] postURL).2.trace).Nodup := by
  decide

/-- C6 (amended).  On every successful conversion there is, for each img
element that carries `src`, in document order, the asset the downloader
returned for its reference, and the names of the entries created are, in
order, `path.Base` of the names of these assets, each also the rewritten `src`
of its element, followed by "article.xhtml".  The names are not made unique:
they are pairwise distinct if and only if the base names of the fetched assets
are pairwise distinct and none of them is "article.xhtml". -/
theorem exportEpub_entry_names (env : Env) (ctx : Context) (input : Bytes)
    (t0 : List Event) (baseURL : String) (s1 : State)
    (h : exportEpub env ctx input t0 baseURL = (Run.returned none, s1)) :
    ∃ (doc : Doc) (rw : List (Nat × FileAsset)) (created : List Event),
      env.Parse input = Except.ok doc ∧
      rw.map Prod.fst = imagesWithSrc doc ∧
      fetchedBy env ctx doc (t0 ++ [Event.newContainer]) rw = true ∧
      s1.trace = t0 ++ created ∧
      entryNames created = rw.map (fun p => Base p.2.Name) ++ ["article.xhtml"] ∧
      (∀ p ∈ rw, GetAttribute s1.doc p.1 "src" = Base p.2.Name) ∧
      ((entryNames created).Nodup ↔
        (rw.map (fun p => Base p.2.Name)).Nodup ∧
          ∀ p ∈ rw, Base p.2.Name ≠ "article.xhtml") := by
  obtain ⟨doc, rw, blocks, _, hparse, hrw, hf, hdoc, _, htrace, _⟩ :=
    exportEpub_returned_nil env ctx input t0 baseURL s1 h
  have hnames : entryNames (Event.newContainer :: (assetEvents doc rw ++
      Event.newItem "article.xhtml" "application/xhtml+xml" ::
        (blocks.map (fun b => Event.write "article.xhtml" b) ++
          [Event.writeOPF "content.opf" "article.xhtml"])))
      = rw.map (fun p => Base p.2.Name) ++ ["article.xhtml"] := by
    simp [entryNames, entryNames_append, entryNames_assetEvents, entryNames_map_write]
  refine ⟨doc, rw, _, hparse, hrw, hf, htrace, hnames, ?_, ?_⟩
  · rw [hdoc]
    exact GetAttribute_applyRewrites_mem rw doc (hrw ▸ imagesWithSrc_nodup doc)
      (HasAttribute_of_covers rw doc hrw)
  · rw [hnames, List.nodup_append]
    constructor
    · rintro ⟨h1, _, h3⟩
      refine ⟨h1, fun p hp heq => ?_⟩
      exact h3 (List.mem_map.mpr ⟨p, hp, heq⟩) (List.mem_singleton_self _)
    · rintro ⟨h1, h2⟩
      refine ⟨h1, List.nodup_singleton _, ?_⟩
      intro x hx hx2
      rw [List.mem_singleton] at hx2
      obtain ⟨p, hp, heq⟩ := List.mem_map.mp hx
      exact h2 p hp (heq.trans hx2)

/-- C6 (amended) at a concrete input: the two different images of `docTwo`. -/
theorem exportEpub_entry_names_witness :
    ∃ (doc : Doc) (rw : List (Nat × FileAsset)) (created : List Event),
      (fixtureEnv docTwo).Parse [] = Except.ok doc ∧
      rw.map Prod.fst = imagesWithSrc doc ∧
      fetchedBy (fixtureEnv docTwo) liveCtx doc ([] ++ [Event.newContainer]) rw = true ∧
      (exportEpub (fixtureEnv docTwo) liveCtx [] [] postURL).2.trace = [] ++ created ∧
      entryNames created = rw.map (fun p => Base p.2.Name) ++ ["article.xhtml"] ∧
      entryNames created = ["a.png", "b.png", "article.xhtml"] := by
  obtain ⟨doc, rw, created, h1, h2, hf, h3, h4, _⟩ :=
    exportEpub_entry_names (fixtureEnv docTwo) liveCtx [] [] postURL
      (exportEpub (fixtureEnv docTwo) liveCtx [] [] postURL).2 (by decide)
  refine ⟨doc, rw, created, h1, h2, hf, h3, h4, ?_⟩
  have hc : created = (exportEpub (fixtureEnv docTwo) liveCtx [] [] postURL).2.trace := by
    rw [h3]
    rfl
  rw [hc]
  decide

/-- C7.  Let the base URL be absolute, the container be initialised, the input
parse to `doc`, the tree be serialisable and the package writer accept every
entry and every write.  If every img element of `doc` that carries `src` has a
resolvable reference whose download succeeds, then `exportEpub` returns, and
the calls it made are: the container initialisation; then, for each of these
elements in document order and for no other, one fetch of its trimmed
reference, one entry named after the base name of the asset the downloader
returned, which becomes the `src` of the element, and one write of the
payload; then the entry "article.xhtml" and the writes of the blocks of the
serialised tree; then, last, the package descriptor. -/
theorem exportEpub_asset_entries_in_document_order (env : Env) (ctx : Context)
    (input : Bytes) (t0 : List Event) (baseURL : String) (doc : Doc)
    (hbase : absoluteURL env baseURL = true)
    (hcontainer : env.NewContainer t0 = none)
    (hparse : env.Parse input = Except.ok doc)
    (hrender : ∀ d, ∃ blocks, env.Render d = (blocks, none))
    (hitem : ∀ t n c, env.NewItem t n c = none)
    (hwrite : ∀ t n d, env.Write t n d = none)
    (himgs : ∀ n ∈ imagesWithSrc doc,
      resolvable env (GetAttribute doc n "src") = true ∧
      ∀ t, ∃ a : FileAsset,
        env.Download ctx t (TrimSpace (GetAttribute doc n "src")) = (some a, none)) :
    ∃ (s1 : State) (r : Option GoError) (rw : List (Nat × FileAsset))
        (blocks : List Bytes),
      exportEpub env ctx input t0 baseURL = (Run.returned r, s1) ∧
      rw.map Prod.fst = imagesWithSrc doc ∧
      fetchedBy env ctx doc (t0 ++ [Event.newContainer]) rw = true ∧
      (imagesWithSrc doc).Nodup ∧
      imagesWithSrc s1.doc = imagesWithSrc doc ∧
      env.Render s1.doc = (blocks, none) ∧
      s1.trace = t0 ++ Event.newContainer :: (assetEvents doc rw ++
        Event.newItem "article.xhtml" "application/xhtml+xml" ::
          (blocks.map (fun b => Event.write "article.xhtml" b) ++
            [Event.writeOPF "content.opf" "article.xhtml"])) ∧
      (∀ p ∈ rw, GetAttribute s1.doc p.1 "src" = Base p.2.Name) ∧
      entryNames (assetEvents doc rw)
        = (imagesWithSrc doc).map (fun n => GetAttribute s1.doc n "src") ∧
      fetchedURLs (assetEvents doc rw)
        = (imagesWithSrc doc).map (fun n => TrimSpace (GetAttribute doc n "src")) := by
  obtain ⟨rw, blocks, hrw, hf, hb, hrun⟩ := exportEpub_all_fetched env ctx input t0 baseURL doc
    hbase hcontainer hparse hrender hitem hwrite himgs
  have hnd : (rw.map Prod.fst).Nodup := hrw ▸ imagesWithSrc_nodup doc
  have hhas := HasAttribute_of_covers rw doc hrw
  refine ⟨_, _, rw, blocks, hrun, hrw, hf, imagesWithSrc_nodup doc, ?_, hb, rfl, ?_, ?_, ?_⟩
  · exact imagesWithSrc_applyRewrites rw doc hhas
  · exact GetAttribute_applyRewrites_mem rw doc hnd hhas
  · rw [entryNames_assetEvents, ← hrw]
    exact names_eq_final_src rw doc hnd hhas
  · rw [fetchedURLs_assetEvents, ← hrw, List.map_map]
    rfl

/-- C7 at a concrete input: `docTwo`, whose img elements at positions 3 and 5
carry `src` and the one at position 4 does not. -/
theorem exportEpub_asset_entries_in_document_order_witness :
    imagesWithSrc docTwo = [3, 5] ∧
    ∃ (s1 : State) (r : Option GoError),
      exportEpub (fixtureEnv docTwo) liveCtx [] [] postURL = (Run.returned r, s1) ∧
      s1.trace = [Event.newContainer,
        Event.download "https://cdn.x/a.png", Event.newItem "a.png" "image/png",
        Event.write "a.png" [65, 65, 65],
        Event.download "https://cdn.x/pics/b.png", Event.newItem "b.png" "image/png",
        Event.write "b.png" [66],
        Event.newItem "article.xhtml" "application/xhtml+xml",
        Event.write "article.xhtml" ((fixtureRender s1.doc).take 32),
        Event.write "article.xhtml" ((fixtureRender s1.doc).drop 32),
        Event.writeOPF "content.opf" "article.xhtml"] := by
  refine ⟨by decide, ?_⟩
  obtain ⟨s1, r, rw, blocks, h1, _⟩ :=
    exportEpub_asset_entries_in_document_order (fixtureEnv docTwo) liveCtx [] [] postURL docTwo
      (by decide) rfl rfl (fun d => ⟨_, rfl⟩) (fun _ _ _ => rfl) (fun _ _ _ => rfl)
      (by
        intro n hn
        have h35 : imagesWithSrc docTwo = [3, 5] := by decide
        rw [h35] at hn
        simp only [List.mem_cons, List.mem_singleton, List.not_mem_nil, or_false] at hn
        rcases hn with rfl | rfl
        · exact ⟨by decide, fun t => ⟨_, rfl⟩⟩
        · exact ⟨by decide, fun t => ⟨_, rfl⟩⟩)
  refine ⟨s1, r, h1, ?_⟩
  have hs : s1 = (exportEpub (fixtureEnv docTwo) liveCtx [] [] postURL).2 := by rw [h1]
  rw [hs]
  decide

/-- C8 (refuted as stated).  With a cancelled context the download of the one
image of `docOne` fails with the cancellation error; `processURL` hands back
the Skip sentinel in its place, and `exportEpub` does not return the
cancellation error. -/
theorem exportEpub_cancellation_not_returned :
    fixtureDownload cancelledCtx [Event.newContainer] "https://cdn.x/pics/b.png"
      = (none, some GoError.canceled) ∧
    (processURL (fixtureEnv docOne) cancelledCtx " https://cdn.x/pics/b.png " postURL
        [Event.newContainer]).1 = (none, some GoError.errSkippedURL) ∧
    (exportEpub (fixtureEnv docOne) cancelledCtx [] [] postURL).1
      ≠ Run.returned (some GoError.canceled) := by
  decide

/-- C8 (amended).  If the download of a resolvable reference fails because the
cancellation signal was triggered, `processURL` treats it like any other
failed download: after the one fetch it returns no asset and the sentinel
`errSkippedURL` in place of the cancellation error.  `exportEpub` does not
look at the error of a failed download either: with a downloader that fails
with any other error wherever this one fails, and answers alike otherwise,
`exportEpub` gives the same result, the same tree and the same calls, for
every input. -/
theorem processURL_swallows_cancellation (env : Env) (ctx : Context)
    (url parentURL : String) (trace : List Event) (a : Option FileAsset)
    (hres : resolvable env url = true)
    (hcancel : env.Download ctx trace (TrimSpace url) = (a, some GoError.canceled)) :
    processURL env ctx url parentURL trace =
      ((none, some GoError.errSkippedURL), trace ++ [Event.download (TrimSpace url)]) ∧
    ∀ other : Context → List Event → String → Option FileAsset × Option GoError,
      (∀ c t u, sameUpToError (env.Download c t u) (other c t u) = true) →
      ∀ (input : Bytes) (t0 : List Event) (baseURL : String),
        exportEpub { env with Download := other } ctx input t0 baseURL
          = exportEpub env ctx input t0 baseURL := by
  constructor
  · rw [processURL_resolvable env ctx url parentURL trace hres, hcancel]
  · intro other hsame input t0 baseURL
    exact exportEpub_sameUpToError env other hsame ctx input t0 baseURL

/-- C8 (amended) at a concrete input: the reference of `docOne` under a
cancelled context, and the downloader that fails with "connection refused"
where the first one fails with the cancellation error. -/
theorem processURL_swallows_cancellation_witness :
    fixtureDownloadOther cancelledCtx [] "https://cdn.x/pics/b.png"
      = (none, some (GoError.other "connection refused")) ∧
    processURL (fixtureEnv docOne) cancelledCtx " https://cdn.x/pics/b.png " postURL [] =
      ((none, some GoError.errSkippedURL), [Event.download "https://cdn.x/pics/b.png"]) ∧
    exportEpub { fixtureEnv docOne with Download := fixtureDownloadOther } cancelledCtx [] []
        postURL
      = exportEpub (fixtureEnv docOne) cancelledCtx [] [] postURL :=
  ⟨by decide,
    (processURL_swallows_cancellation (fixtureEnv docOne) cancelledCtx
      " https://cdn.x/pics/b.png " postURL [] none (by decide) (by decide)).1,
    (processURL_swallows_cancellation (fixtureEnv docOne) cancelledCtx
      " https://cdn.x/pics/b.png " postURL [] none (by decide) (by decide)).2
      fixtureDownloadOther
      (by
        intro c t u
        show sameUpToError (fixtureDownload c t u) (fixtureDownloadOther c t u) = true
        unfold fixtureDownloadOther
        rcases fixtureDownload c t u with ⟨x, _ | e⟩ <;> simp [sameUpToError])
      [] [] postURL⟩

/-- C9 (refuted as stated).  An image whose asset is named "article.xhtml":
the conversion succeeds and the package has two entries of that name, the
asset and the primary document. -/
theorem exportEpub_two_primary_names :
    (exportEpub (fixtureEnv docClash) liveCtx [] [] postURL).1 = Run.returned none ∧
    entryNames (exportEpub (fixtureEnv docClash) liveCtx [] [] postURL).2.trace
      = ["article.xhtml", "article.xhtml"] ∧
    (entryNames (exportEpub (fixtureEnv docClash) liveCtx [] [] postURL).2.trace).count
      "article.xhtml" = 2 := by
  decide

/-- C9 (amended).  On every successful `exportEpub` the calls end with the
creation of the entry "article.xhtml" with content type
"application/xhtml+xml", then the writes into that entry of the blocks that
serialise the tree after all rewrites, one write a block and nothing else in
between, then the write of the descriptor "content.opf" naming
"article.xhtml", which is the last call; no descriptor is written before that.
The entries created before are the asset entries, named `path.Base` of the
names of the assets the downloader returned, so "article.xhtml" names exactly
one entry if and only if no fetched asset has the base name
"article.xhtml". -/
theorem exportEpub_primary_document_last (env : Env) (ctx : Context) (input : Bytes)
    (t0 : List Event) (baseURL : String) (s1 : State)
    (h : exportEpub env ctx input t0 baseURL = (Run.returned none, s1)) :
    ∃ (doc : Doc) (rw : List (Nat × FileAsset)) (before : List Event)
        (blocks : List Bytes),
      env.Parse input = Except.ok doc ∧
      rw.map Prod.fst = imagesWithSrc doc ∧
      fetchedBy env ctx doc (t0 ++ [Event.newContainer]) rw = true ∧
      env.Render s1.doc = (blocks, none) ∧
      s1.trace = t0 ++ (before ++
        Event.newItem "article.xhtml" "application/xhtml+xml" ::
          (blocks.map (fun b => Event.write "article.xhtml" b) ++
            [Event.writeOPF "content.opf" "article.xhtml"])) ∧
      (∀ e ∈ before, ∀ n p, e ≠ Event.writeOPF n p) ∧
      entryNames before = rw.map (fun p => Base p.2.Name) ∧
      ((entryNames (before ++
          Event.newItem "article.xhtml" "application/xhtml+xml" ::
            (blocks.map (fun b => Event.write "article.xhtml" b) ++
              [Event.writeOPF "content.opf" "article.xhtml"]))).count "article.xhtml" = 1 ↔
        ∀ p ∈ rw, Base p.2.Name ≠ "article.xhtml") := by
  obtain ⟨doc, rw, blocks, _, hparse, hrw, hf, hdoc, hrender, htrace, _⟩ :=
    exportEpub_returned_nil env ctx input t0 baseURL s1 h
  have hbefore : entryNames (Event.newContainer :: assetEvents doc rw)
      = rw.map (fun p => Base p.2.Name) := by
    simp [entryNames, entryNames_assetEvents]
  refine ⟨doc, rw, Event.newContainer :: assetEvents doc rw, blocks, hparse, hrw, hf,
    hrender, ?_, ?_, hbefore, ?_⟩
  · rw [htrace]
    simp
  · intro e he n p heq
    rcases List.mem_cons.mp he with he | he
    · rw [heq] at he
      cases he
    · rcases mem_assetEvents doc rw e he with ⟨u, hu⟩ | ⟨x, c, hx⟩ | ⟨x, d, hx⟩
      · rw [heq] at hu
        cases hu
      · rw [heq] at hx
        cases hx
      · rw [heq] at hx
        cases hx
  · rw [entryNames_append, hbefore]
    have h3 : entryNames (Event.newItem "article.xhtml" "application/xhtml+xml" ::
        (blocks.map (fun b => Event.write "article.xhtml" b) ++
          [Event.writeOPF "content.opf" "article.xhtml"]))
        = ["article.xhtml"] := by
      simp [entryNames, entryNames_append, entryNames_map_write]
    rw [h3, List.count_append, List.count_singleton_self]
    constructor
    · intro hc p hp heq
      have hmem : "article.xhtml" ∈ rw.map (fun p => Base p.2.Name) :=
        List.mem_map.mpr ⟨p, hp, heq⟩
      have := List.count_pos_iff.mpr hmem
      omega
    · intro hne
      have hmem : "article.xhtml" ∉ rw.map (fun p => Base p.2.Name) := by
        intro hm
        obtain ⟨p, hp, heq⟩ := List.mem_map.mp hm
        exact hne p hp heq
      rw [List.count_eq_zero.mpr hmem]

/-- C9 (amended) at a concrete input: the conversion of `docTwo`, whose
serialisation is written in two blocks. -/
theorem exportEpub_primary_document_last_witness :
    ∃ (doc : Doc) (rw : List (Nat × FileAsset)) (before : List Event)
        (blocks : List Bytes),
      (fixtureEnv docTwo).Parse [] = Except.ok doc ∧
      rw.map Prod.fst = imagesWithSrc doc ∧
      fetchedBy (fixtureEnv docTwo) liveCtx doc ([] ++ [Event.newContainer]) rw = true ∧
      (fixtureEnv docTwo).Render
        (exportEpub (fixtureEnv docTwo) liveCtx [] [] postURL).2.doc = (blocks, none) ∧
      (exportEpub (fixtureEnv docTwo) liveCtx [] [] postURL).2.trace = [] ++ (before ++
        Event.newItem "article.xhtml" "application/xhtml+xml" ::
          (blocks.map (fun b => Event.write "article.xhtml" b) ++
            [Event.writeOPF "content.opf" "article.xhtml"])) ∧
      blocks.length = 2 ∧
      (entryNames (exportEpub (fixtureEnv docTwo) liveCtx [] [] postURL).2.trace).count
        "article.xhtml" = 1 := by
  obtain ⟨doc, rw, before, blocks, h1, h2, hf, h3, h4, _⟩ :=
    exportEpub_primary_document_last (fixtureEnv docTwo) liveCtx [] [] postURL
      (exportEpub (fixtureEnv docTwo) liveCtx [] [] postURL).2 (by decide)
  refine ⟨doc, rw, before, blocks, h1, h2, hf, h3, h4, ?_, by decide⟩
  have hb : blocks = fixtureBlocks (exportEpub (fixtureEnv docTwo) liveCtx [] [] postURL).2.doc :=
    (congrArg Prod.fst h3).symm
  rw [hb]
  rfl

/-- C10.  For every article title, the display name of a successful `Export`
is the title with all trailing "." and " " characters removed, followed by
".epub": the part before ".epub" is a prefix of the title, it does not end in
"." or " ", and what was removed consists of "." and " " only. -/
theorem Export_display_name (env : Env) (ctx : Context) (article : Article)
    (asset : FileAsset)
    (h : (Export env ctx article).1 = Run.returned (some asset, none)) :
    asset.Name = TrimRight article.Title ". " ++ ".epub" ∧
    ∃ stem removed : List Char,
      article.Title.data = stem ++ removed ∧
      asset.Name = String.mk stem ++ ".epub" ∧
      (∀ c ∈ removed, c = '.' ∨ c = ' ') ∧
      (∀ c, stem.getLast? = some c → c ≠ '.' ∧ c ≠ ' ') := by
  have hname : asset.Name = TrimRight article.Title ". " ++ ".epub" := by
    unfold Export at h
    cases hx : env.Execute article with
    | error e => simp [hx] at h
    | ok buffer =>
      simp only [hx] at h
      cases hw : env.NewWriter article.Title with
      | some e => simp [hw] at h
      | none =>
        simp only [hw] at h
        cases hu : article.URL with
        | none => simp [hu] at h
        | some baseURL =>
          simp only [hu] at h
          rcases hrun : exportEpub env ctx buffer [] baseURL with ⟨r, s1⟩
          rw [hrun] at h
          cases r with
          | panicked => simp at h
          | returned v =>
            cases v with
            | some e => simp at h
            | none =>
              simp only [Run.returned.injEq, Prod.mk.injEq, Option.some.injEq, and_true] at h
              rw [← h]
  refine ⟨hname, ?_⟩
  obtain ⟨removed, h1, h2, h3⟩ :=
    rdropWhile_split (fun c => decide (c ∈ (". " : String).data)) article.Title.data
  refine ⟨_, removed, h1, hname, ?_, ?_⟩
  · intro c hc
    have := h2 c hc
    simpa using this
  · intro c hc
    have := h3 c hc
    simpa using this

/-- C10 at a concrete input: the title "My Article. " gives the display name
"My Article.epub". -/
theorem Export_display_name_witness :
    (Export (fixtureEnv docTwo) liveCtx
        { Title := "My Article. ", URL := some postURL, HTML := none }).1
      = Run.returned
          (some { Data := [12], ContentType := "application/epub+zip",
                  Name := "My Article.epub" }, none) ∧
    "My Article.epub" = TrimRight "My Article. " ". " ++ ".epub" :=
  ⟨by decide,
    (Export_display_name (fixtureEnv docTwo) liveCtx
      { Title := "My Article. ", URL := some postURL, HTML := none }
      { Data := [12], ContentType := "application/epub+zip", Name := "My Article.epub" }
      (by decide)).1⟩

end Epub
